import Mathlib

/-!
Shallow embedding of the LK virtual memory manager (src/kernel/vm/vmm.c)
and verification of the spec claims about it.

Modelling conventions:
* `vaddr_t`, `paddr_t` and `size_t` are 32-bit unsigned integers; they are
  modelled as `Nat` with an explicit modulus `M = 2^32` applied exactly where
  the C code performs arithmetic that can wrap.
* The intrusive doubly linked region list is modelled as `List Region`;
  `list_add_head` is consing, `list_add_after` at a known predecessor is
  `insertAt`.
* `malloc` is assumed to succeed (heap exhaustion is not the subject of any
  claim).  Region and aspace names do not influence any claim and are omitted.
* The external pmm and MMU driver are not part of src/; they are modelled
  from the spec's interface description (see the doc comments below).
-/

namespace Vmm

/-- Machine word modulus: the word width of vaddr_t / size_t (32 bits). -/
def M : Nat := 4294967296

/-- ULONG_MAX for the 32-bit unsigned long used by trim_to_aspace. -/
def ULONG_MAX : Nat := M - 1

def PAGE_SIZE : Nat := 4096

def PAGE_SIZE_SHIFT : Nat := 12

/-- IS_PAGE_ALIGNED(x): (x & (PAGE_SIZE - 1)) == 0, i.e. x % PAGE_SIZE == 0. -/
def IS_PAGE_ALIGNED (x : Nat) : Bool := x % PAGE_SIZE == 0

/-- The ROUNDUP(a, b) macro: ((a + b - 1) & ~(b - 1)) in 32-bit unsigned
arithmetic.  For b a power of two (every use in vmm.c), masking with ~(b-1)
rounds down to a multiple of b, i.e. t & ~(b-1) = t / b * b. -/
def ROUNDUP (a b : Nat) : Nat := (((a + (b - 1)) % M) / b) * b

/-- The ALIGN(a, b) macro is ROUNDUP(a, b). -/
def ALIGN (a b : Nat) : Nat := ROUNDUP a b

/-- 32-bit unsigned subtraction x - y (for y ≤ M). -/
def wsub (x y : Nat) : Nat := (x + (M - y)) % M

/-- LK status codes returned by the VMM entry points. -/
inductive Status where
  | NO_ERROR
  | ERR_NO_MEMORY
  | ERR_INVALID_ARGS
  | ERR_OUT_OF_RANGE
  | ERR_GENERIC
  deriving DecidableEq, Repr

/-- Modelled from the spec: region category flags from kernel/vm.h (not in
src/); the concrete bit values are opaque to every claim. -/
def VMM_REGION_FLAG_RESERVED : Nat := 1

def VMM_REGION_FLAG_PHYSICAL : Nat := 2

/-- vmm_region_t: named span with attached physical pages.  `pages` is the
region's page_list, holding the physical addresses of the attached pages. -/
structure Region where
  base : Nat
  size : Nat
  flags : Nat
  arch_mmu_flags : Nat
  pages : List Nat
  deriving DecidableEq, Repr

/-- vmm_aspace_t: bounded virtual range owning an ordered region list. -/
structure Aspace where
  base : Nat
  size : Nat
  regions : List Region
  deriving DecidableEq, Repr

/-- One recorded arch_mmu_map call of the mocked MMU driver. -/
structure MmuMap where
  va : Nat
  pa : Nat
  count : Nat
  flags : Nat
  deriving DecidableEq, Repr

/-- Whole-system state threaded through the public entry points: the address
space, the mocked pmm's free-page list (physical addresses), and the mocked
MMU's log of map calls. -/
structure VmState where
  aspace : Aspace
  pmm : List Nat
  mmu : List MmuMap
  deriving DecidableEq, Repr

/-- Modelled from the spec: arch_mmu_map(va, pa, count, flags) -> status.
The mocked MMU records the call; the returned status is chosen by the
environment (parameter `ret`). -/
def arch_mmu_map (mmu : List MmuMap) (va pa count flags : Nat) (ret : Status) :
    Status × List MmuMap :=
  (ret, mmu ++ [⟨va, pa, count, flags⟩])

/-- Modelled from the spec: pmm_alloc_pages(count, list) enqueues up to
`count` pages onto the list and returns how many it obtained.  The mock hands
out the first free pages. -/
def pmm_alloc_pages (pmm : List Nat) (count : Nat) : List Nat × List Nat :=
  (pmm.take count, pmm.drop count)

/-- Modelled from the spec: pmm_alloc_contiguous(count, align, pa, list) may
return fewer than `count` pages (partial success).  How many physically
contiguous pages the pmm manages to find is decided by the environment
parameter `grant`. -/
def pmm_alloc_contiguous (pmm : List Nat) (count grant : Nat) :
    List Nat × List Nat :=
  (pmm.take (min grant count), pmm.drop (min grant count))

/-- Modelled from the spec: pmm_free returns a page list to the pmm. -/
def pmm_free (pmm : List Nat) (pages : List Nat) : List Nat := pmm ++ pages

/-- is_inside_aspace: base <= vaddr && vaddr <= base + size - 1, the end
computed in 32-bit arithmetic. -/
def is_inside_aspace (as : Aspace) (vaddr : Nat) : Bool :=
  decide (as.base ≤ vaddr ∧ vaddr ≤ (as.base + as.size + (M - 1)) % M)

/-- is_region_inside_aspace, translated check for check; vaddr + size - 1 and
the aspace end are computed in 32-bit arithmetic. -/
def is_region_inside_aspace (as : Aspace) (vaddr size : Nat) : Bool :=
  if !(is_inside_aspace as vaddr) then false
  else if size == 0 then true
  else if (vaddr + size + (M - 1)) % M < vaddr then false
  else if (as.base + as.size + (M - 1)) % M < (vaddr + size + (M - 1)) % M then false
  else true

/-- trim_to_aspace: clamp `size` so the region fits in the aspace, with the
source's overflow guard (offset + size < offset) and its comparisons against
aspace.size - 1, all in 32-bit arithmetic. -/
def trim_to_aspace (as : Aspace) (vaddr size : Nat) : Nat :=
  if size == 0 then size
  else
    let offset := (vaddr + (M - as.base)) % M
    let size1 := if (offset + size) % M < offset
      then ((ULONG_MAX - offset) + (M - 1)) % M
      else size
    if (as.size + (M - 1)) % M ≤ (offset + size1) % M
      then (as.size + (M - offset)) % M
      else size1

/-- Insert `r` at position `i` (list_add_after the (i-1)-th node; i = 0 is
list_add_head). -/
def insertAt (l : List Region) (i : Nat) (r : Region) : List Region :=
  match l, i with
  | l, 0 => r :: l
  | [], _ + 1 => [r]
  | x :: xs, j + 1 => x :: insertAt xs j r

/-- Apply `f` to the element at position `i`. -/
def modifyAt (l : List Region) (i : Nat) (f : Region → Region) : List Region :=
  match l, i with
  | [], _ => []
  | x :: xs, 0 => f x :: xs
  | x :: xs, j + 1 => x :: modifyAt xs j f

/-- The scanning loop of add_region_to_aspace: walk the list looking for the
first element `last` with r.base > last.base + last.size - 1 that either ends
the list or is followed by `next` with r_end < next.base.  Returns the
insertion position (1 = right after the head of the scanned sublist). -/
def addFindPos (r : Region) (rEnd : Nat) : List Region → Option Nat
  | [] => none
  | last :: rest =>
    if (last.base + last.size + (M - 1)) % M < r.base then
      match rest with
      | [] => some 1
      | next :: _ =>
        if rEnd < next.base then some 1
        else (addFindPos r rEnd rest).map (· + 1)
    else (addFindPos r rEnd rest).map (· + 1)

/-- add_region_to_aspace: containment check, then head insertion if the
candidate ends before the first region, otherwise the scan.  Returns the
status, the (possibly unchanged) aspace, and the insertion position. -/
def add_region_to_aspace (as : Aspace) (r : Region) : Status × Aspace × Nat :=
  if r.size == 0 || !(is_region_inside_aspace as r.base r.size) then
    (Status.ERR_OUT_OF_RANGE, as, 0)
  else
    let rEnd := (r.base + r.size + (M - 1)) % M
    match as.regions with
    | [] => (Status.NO_ERROR, ⟨as.base, as.size, [r]⟩, 0)
    | first :: _ =>
      if rEnd < first.base then
        (Status.NO_ERROR, ⟨as.base, as.size, r :: as.regions⟩, 0)
      else
        match addFindPos r rEnd as.regions with
        | some k => (Status.NO_ERROR, ⟨as.base, as.size, insertAt as.regions k r⟩, k)
        | none => (Status.ERR_NO_MEMORY, as, 0)

/-- The list_for_every_entry loop of alloc_spot: after each region r propose
ALIGN(r.base + r.size, align); break (fail) if that leaves the aspace; skip
to the next region if the proposal reaches into it or the gap is too small.
`idx` is the position of the current head within the full region list. -/
def spotLoop (as : Aspace) (size align : Nat) : List Region → Nat → Option (Nat × Nat)
  | [], _ => none
  | r :: rest, idx =>
    let spot := ALIGN ((r.base + r.size) % M) align
    if !(is_inside_aspace as spot) then none
    else
      match rest with
      | next :: _ =>
        if next.base ≤ spot then spotLoop as size align rest (idx + 1)
        else if size ≤ wsub next.base spot then some (spot, idx + 1)
        else spotLoop as size align rest (idx + 1)
      | [] =>
        if size ≤ wsub ((as.base + as.size) % M) spot then some (spot, idx + 1)
        else none

/-- alloc_spot: first-fit search for an aligned free gap.  Returns the chosen
address and the insertion position (0 = head), or none (the source's
(vaddr_t)-1). -/
def alloc_spot (as : Aspace) (size align_pow2 : Nat) : Option (Nat × Nat) :=
  let ap := max align_pow2 PAGE_SIZE_SHIFT
  let align := (2 ^ ap) % M
  let spot := ALIGN as.base align
  if !(is_inside_aspace as spot) then none
  else
    match as.regions with
    | [] =>
      if size ≤ wsub ((as.base + as.size) % M) spot then some (spot, 0) else none
    | r :: _ =>
      if spot < r.base ∧ size ≤ wsub r.base spot then some (spot, 0)
      else spotLoop as size align as.regions 0

/-- alloc_region: build the region struct and place it, either at the caller
supplied address (add_region_to_aspace) or at a spot found by alloc_spot.
Returns the region base, its position, and the new aspace, or none. -/
def alloc_region (as : Aspace) (size vaddr align_pow2 : Nat) (specific : Bool)
    (region_flags arch_mmu_flags : Nat) : Option (Nat × Nat × Aspace) :=
  let r : Region := ⟨vaddr, size, region_flags, arch_mmu_flags, []⟩
  if specific then
    match add_region_to_aspace as r with
    | (Status.NO_ERROR, as2, k) => some (vaddr, k, as2)
    | _ => none
  else
    match alloc_spot as size align_pow2 with
    | some (spot, k) =>
      some (spot, k, ⟨as.base, as.size, insertAt as.regions k ⟨spot, size, region_flags, arch_mmu_flags, []⟩⟩)
    | none => none

/-- vmm_reserve_space: record an externally established mapping.
`queryFlags` is what the mocked arch_mmu_query reports at vaddr. -/
def vmm_reserve_space (st : VmState) (size vaddr queryFlags : Nat) :
    Status × VmState :=
  if size == 0 then (Status.NO_ERROR, st)
  else if !(IS_PAGE_ALIGNED vaddr) || !(IS_PAGE_ALIGNED size) then
    (Status.ERR_INVALID_ARGS, st)
  else if !(is_inside_aspace st.aspace vaddr) then (Status.ERR_OUT_OF_RANGE, st)
  else
    let size2 := trim_to_aspace st.aspace vaddr size
    match alloc_region st.aspace size2 vaddr 0 true VMM_REGION_FLAG_RESERVED queryFlags with
    | some (_, _, as2) => (Status.NO_ERROR, ⟨as2, st.pmm, st.mmu⟩)
    | none => (Status.ERR_NO_MEMORY, st)

/-- vmm_alloc_physical: map a caller supplied physical range.  `ptr` is the
caller's *ptr (none when the pointer argument is NULL); the third component
of the result is the published *ptr.  `mapRet` is the status the mocked MMU
returns (bound to err in the source and then discarded). -/
def vmm_alloc_physical (st : VmState) (size : Nat) (ptr : Option Nat)
    (paddr : Nat) (specific : Bool) (arch_flags : Nat) (mapRet : Status) :
    Status × VmState × Option Nat :=
  if size == 0 then (Status.NO_ERROR, st, ptr)
  else if !(IS_PAGE_ALIGNED paddr) || !(IS_PAGE_ALIGNED size) then
    (Status.ERR_INVALID_ARGS, st, ptr)
  else if specific && ptr.isNone then (Status.ERR_INVALID_ARGS, st, ptr)
  else
    let vaddr := if specific then ptr.getD 0 else 0
    match alloc_region st.aspace size vaddr 0 specific VMM_REGION_FLAG_PHYSICAL arch_flags with
    | none => (Status.ERR_NO_MEMORY, st, ptr)
    | some (rbase, _, as2) =>
      let ptrOut := if ptr.isSome then some rbase else none
      let q := arch_mmu_map st.mmu rbase paddr (size / PAGE_SIZE) arch_flags mapRet
      (Status.NO_ERROR, ⟨as2, st.pmm, q.2⟩, ptrOut)

/-- vmm_alloc_contiguous: obtain a physically contiguous run from the pmm
first, then place and map it.  `grant` is how many contiguous pages the
mocked pmm finds; `mapRet` is the mocked MMU's status (ignored, XXX in the
source).  Note the source's partial-allocation failure path jumps past
pmm_free. -/
def vmm_alloc_contiguous (st : VmState) (size : Nat) (ptr : Option Nat)
    (align_pow2 : Nat) (specific : Bool) (arch_flags : Nat) (grant : Nat)
    (mapRet : Status) : Status × VmState × Option Nat :=
  let size2 := ROUNDUP size PAGE_SIZE
  if size2 == 0 then (Status.ERR_INVALID_ARGS, st, ptr)
  else if specific && ptr.isNone then (Status.ERR_INVALID_ARGS, st, ptr)
  else
    let vaddr := if specific then ptr.getD 0 else 0
    let count := size2 / PAGE_SIZE
    let taken := pmm_alloc_contiguous st.pmm count grant
    if taken.1.length < count then
      (Status.ERR_NO_MEMORY, ⟨st.aspace, taken.2, st.mmu⟩, ptr)
    else
      match alloc_region st.aspace size2 vaddr align_pow2 specific VMM_REGION_FLAG_PHYSICAL arch_flags with
      | none => (Status.ERR_NO_MEMORY, ⟨st.aspace, pmm_free taken.2 taken.1, st.mmu⟩, ptr)
      | some (rbase, k, as2) =>
        let ptrOut := if ptr.isSome then some rbase else none
        let pa := taken.1.headD 0
        let q := arch_mmu_map st.mmu rbase pa count arch_flags mapRet
        let as3 : Aspace := ⟨as2.base, as2.size, modifyAt as2.regions k (fun r => ⟨r.base, r.size, r.flags, r.arch_mmu_flags, taken.1⟩)⟩
        (Status.NO_ERROR, ⟨as3, taken.2, q.2⟩, ptrOut)

/-- vmm_alloc: obtain `size / PAGE_SIZE` scattered pages from the pmm, place
the region, map each page, and transfer the pages into the region.
`mapRet i` is the status the mocked MMU returns for the i-th page map call
(ignored, XXX in the source). -/
def vmm_alloc (st : VmState) (size : Nat) (ptr : Option Nat)
    (align_pow2 : Nat) (specific : Bool) (arch_flags : Nat)
    (mapRet : Nat → Status) : Status × VmState × Option Nat :=
  let size2 := ROUNDUP size PAGE_SIZE
  if size2 == 0 then (Status.ERR_INVALID_ARGS, st, ptr)
  else if specific && ptr.isNone then (Status.ERR_INVALID_ARGS, st, ptr)
  else
    let vaddr := if specific then ptr.getD 0 else 0
    let count := size2 / PAGE_SIZE
    let taken := pmm_alloc_pages st.pmm count
    if taken.1.length < count then
      (Status.ERR_NO_MEMORY, ⟨st.aspace, pmm_free taken.2 taken.1, st.mmu⟩, ptr)
    else
      match alloc_region st.aspace size2 vaddr align_pow2 specific VMM_REGION_FLAG_PHYSICAL arch_flags with
      | none => (Status.ERR_NO_MEMORY, ⟨st.aspace, pmm_free taken.2 taken.1, st.mmu⟩, ptr)
      | some (rbase, k, as2) =>
        let ptrOut := if ptr.isSome then some rbase else none
        let mmu2 := taken.1.enum.foldl
          (fun acc pi =>
            (arch_mmu_map acc ((rbase + pi.1 * PAGE_SIZE) % M) pi.2 1 arch_flags (mapRet pi.1)).2)
          st.mmu
        let as3 : Aspace := ⟨as2.base, as2.size, modifyAt as2.regions k (fun r => ⟨r.base, r.size, r.flags, r.arch_mmu_flags, taken.1⟩)⟩
        (Status.NO_ERROR, ⟨as3, taken.2, mmu2⟩, ptrOut)

end Vmm

namespace Vmm

/-! ## Specification-side predicates -/

/-- All ordered pairs of list elements (in list order) satisfy P. -/
def allPairs (P : Region → Region → Prop) : List Region → Prop
  | [] => True
  | r :: rest => (∀ s ∈ rest, P r s) ∧ allPairs P rest

instance allPairsDec (P : Region → Region → Prop) [∀ a b, Decidable (P a b)] :
    (l : List Region) → Decidable (allPairs P l)
  | [] => isTrue True.intro
  | _ :: rest =>
    have : Decidable (allPairs P rest) := allPairsDec P rest
    inferInstanceAs (Decidable (_ ∧ _))

/-- Regions strictly sorted ascending by base (spec invariant 1, first half). -/
def regionsSorted (as : Aspace) : Prop :=
  allPairs (fun r s => r.base < s.base) as.regions

/-- Regions pairwise disjoint (spec invariant 1, second half). -/
def regionsDisjoint (as : Aspace) : Prop :=
  allPairs (fun r s => r.base + r.size ≤ s.base ∨ s.base + s.size ≤ r.base) as.regions

/-- Every region fully contained in its aspace (spec invariant 2); with
positive sizes, r.base + r.size ≤ base + size is containment of the inclusive
end in [base, base + size - 1]. -/
def regionsContained (as : Aspace) : Prop :=
  ∀ r ∈ as.regions, as.base ≤ r.base ∧ r.base + r.size ≤ as.base + as.size

/-- Working invariant: the sorted-disjoint chain condition plus containment
and positive sizes.  It implies regionsSorted, regionsDisjoint and
regionsContained (lemma aspaceInv_props). -/
def aspaceInv (as : Aspace) : Prop :=
  allPairs (fun r s => r.base + r.size ≤ s.base) as.regions ∧
    ∀ r ∈ as.regions, 0 < r.size ∧ as.base ≤ r.base ∧ r.base + r.size ≤ as.base + as.size

/-- A well-formed aspace: nonempty, the size representable as a size_t, and
the inclusive end does not wrap. -/
def aspaceWF (as : Aspace) : Prop :=
  0 < as.size ∧ as.size < M ∧ as.base + as.size ≤ M

/-- A valid spot for the free-gap search, written from the spec: aligned,
the whole of [spot, spot + size - 1] inside the aspace, and disjoint from
every existing region. -/
def validSpot (as : Aspace) (size align spot : Nat) : Prop :=
  align ∣ spot ∧ as.base ≤ spot ∧ spot + size ≤ as.base + as.size ∧
    ∀ r ∈ as.regions, spot + size ≤ r.base ∨ r.base + r.size ≤ spot

instance (as : Aspace) : Decidable (regionsSorted as) :=
  inferInstanceAs (Decidable (allPairs _ _))

instance (as : Aspace) : Decidable (regionsDisjoint as) :=
  inferInstanceAs (Decidable (allPairs _ _))

instance (as : Aspace) : Decidable (regionsContained as) :=
  inferInstanceAs (Decidable (∀ r ∈ as.regions, _ ∧ _))

instance (as : Aspace) : Decidable (aspaceInv as) :=
  inferInstanceAs (Decidable (allPairs _ _ ∧ _))

instance (as : Aspace) : Decidable (aspaceWF as) :=
  inferInstanceAs (Decidable (_ ∧ _))

instance (as : Aspace) (size align spot : Nat) : Decidable (validSpot as size align spot) :=
  inferInstanceAs (Decidable (_ ∧ _ ∧ _ ∧ ∀ r ∈ as.regions, _ ∨ _))

end Vmm

namespace Vmm

/-! ## Arithmetic helper lemmas -/

/-- Mathematical round-up to a multiple of a (no wrapping). -/
def alignUpN (x a : Nat) : Nat := ((x + a - 1) / a) * a

lemma alignUpN_dvd (x a : Nat) : a ∣ alignUpN x a :=
  ⟨(x + a - 1) / a, Nat.mul_comm _ _⟩

lemma le_alignUpN (x : Nat) {a : Nat} (ha : 0 < a) : x ≤ alignUpN x a := by
  have h1 := Nat.div_add_mod (x + a - 1) a
  have h2 : (x + a - 1) % a < a := Nat.mod_lt _ ha
  have h3 : ((x + a - 1) / a) * a = a * ((x + a - 1) / a) := Nat.mul_comm _ _
  unfold alignUpN
  omega

lemma alignUpN_le {x a y : Nat} (ha : 0 < a) (hd : a ∣ y) (hx : x ≤ y) :
    alignUpN x a ≤ y := by
  obtain ⟨c, rfl⟩ := hd
  have h1 : x + a - 1 < (c + 1) * a := by
    have h2 : (c + 1) * a = a * c + a := by ring
    omega
  have h3 : (x + a - 1) / a < c + 1 := (Nat.div_lt_iff_lt_mul ha).mpr h1
  unfold alignUpN
  calc ((x + a - 1) / a) * a ≤ c * a := Nat.mul_le_mul_right a (by omega)
  _ = a * c := Nat.mul_comm _ _

lemma dvd_add_le {a u v : Nat} (hu : a ∣ u) (hv : a ∣ v) (h : u < v) :
    u + a ≤ v := by
  obtain ⟨c, rfl⟩ := hu; obtain ⟨d, rfl⟩ := hv
  have hcd : c < d := by
    by_contra hc
    exact absurd (Nat.mul_le_mul_left a (Nat.le_of_not_lt hc)) (Nat.not_le_of_lt h)
  calc a * c + a = a * (c + 1) := by ring
  _ ≤ a * d := Nat.mul_le_mul_left a hcd

/-- The 32-bit ALIGN macro agrees with the mathematical round-up, except that
a round-up landing exactly on 2^32 wraps to 0. -/
lemma ALIGN_eq {x a : Nat} (ha : 0 < a) (hx : x < M) (hd : a ∣ M) :
    ALIGN x a = if alignUpN x a = M then 0 else alignUpN x a := by
  have haM : a ≤ M := Nat.le_of_dvd (by simp only [M]; omega) hd
  have hup : alignUpN x a ≤ M := alignUpN_le ha hd (Nat.le_of_lt hx)
  unfold ALIGN ROUNDUP
  rcases Nat.lt_or_ge (x + (a - 1)) M with h | h
  · rw [Nat.mod_eq_of_lt h]
    have hle : ((x + (a - 1)) / a) * a ≤ x + (a - 1) := Nat.div_mul_le_self _ _
    have hxa : x + (a - 1) = x + a - 1 := by omega
    rw [if_neg]
    · unfold alignUpN; rw [hxa]
    · unfold alignUpN; rw [hxa] at hle; omega
  · -- the 32-bit sum wrapped: the round-up is exactly M and the macro gives 0
    have hmod : (x + (a - 1)) % M = x + a - 1 - M := by
      simp only [M] at *; omega
    have hdiv : (x + a - 1 - M) / a = 0 := Nat.div_eq_of_lt (by omega)
    have hMup : alignUpN x a = M := by
      rcases Nat.lt_or_ge (alignUpN x a) M with hlt | hge
      · exfalso
        have hq1 := dvd_add_le (alignUpN_dvd x a) hd hlt
        have hq2 := le_alignUpN x ha
        omega
      · omega
    rw [hmod, hdiv, if_pos hMup]
    simp

lemma ALIGN_zero {a : Nat} (ha : a ≤ M) : ALIGN 0 a = 0 := by
  unfold ALIGN ROUNDUP
  rcases Nat.eq_zero_or_pos a with rfl | hpos
  · simp
  · have h1 : (0 + (a - 1)) % M = a - 1 := by simp only [M] at *; omega
    rw [h1, Nat.div_eq_of_lt (by omega), Nat.zero_mul]

lemma PAGE_dvd_ALIGN {x a : Nat} (hd : PAGE_SIZE ∣ a) : PAGE_SIZE ∣ ALIGN x a := by
  unfold ALIGN ROUNDUP
  exact Dvd.dvd.mul_left hd _

lemma wsub_eq {x y : Nat} (h1 : y ≤ x) (h2 : x ≤ M) (h3 : 0 < y) :
    wsub (x % M) y = x - y := by
  unfold wsub; simp only [M] at *; omega

lemma wsub_plain {x y : Nat} (h1 : y ≤ x) (h2 : x < M) : wsub x y = x - y := by
  unfold wsub; simp only [M] at *; omega

lemma is_inside_iff {as : Aspace} (hwf : aspaceWF as) (va : Nat) :
    is_inside_aspace as va = true ↔ as.base ≤ va ∧ va ≤ as.base + as.size - 1 := by
  unfold is_inside_aspace aspaceWF at *
  simp only [decide_eq_true_eq, M] at *
  omega

lemma is_region_inside_iff {as : Aspace} (hwf : aspaceWF as) {va sz : Nat}
    (hsz : 0 < sz) (hszM : sz < M) :
    is_region_inside_aspace as va sz = true ↔
      as.base ≤ va ∧ va + sz ≤ as.base + as.size := by
  unfold aspaceWF at hwf
  unfold is_region_inside_aspace is_inside_aspace
  simp only [Bool.not_eq_true', decide_eq_false_iff_not, decide_eq_true_eq,
    beq_iff_eq, not_and, not_le, M] at *
  split_ifs <;>
    simp only [Bool.false_eq_true, false_iff, eq_self_iff_true, true_iff,
      not_and, not_le] <;>
    omega

/-- Full characterization of trim_to_aspace at a contained vaddr: for nonzero
size it clamps to aspace.size - offset whenever offset + size ≥ aspace.size - 1
(including the 32-bit overflow case), and otherwise returns size unchanged. -/
lemma trim_spec {as : Aspace} (hwf : aspaceWF as) {va : Nat} (sz : Nat)
    (hl : as.base ≤ va) (hr : va ≤ as.base + as.size - 1) (hszM : sz < M) :
    trim_to_aspace as va sz =
      if sz = 0 then 0
      else if as.size - 1 ≤ (va - as.base) + sz then as.size - (va - as.base)
      else sz := by
  unfold trim_to_aspace ULONG_MAX aspaceWF at *
  simp only [beq_iff_eq, M] at *
  split_ifs <;> omega

end Vmm

namespace Vmm

/-! ## List lemmas -/

lemma insertAt_eq : ∀ (l : List Region) (k : Nat) (r : Region),
    insertAt l k r = l.take k ++ r :: l.drop k
  | l, 0, r => by cases l <;> rfl
  | [], _ + 1, r => by simp [insertAt]
  | x :: xs, j + 1, r => by
    simp only [insertAt, List.take_succ_cons, List.drop_succ_cons, List.cons_append]
    rw [insertAt_eq xs j r]

lemma mem_insertAt (l : List Region) (k : Nat) (r x : Region) :
    x ∈ insertAt l k r ↔ x = r ∨ x ∈ l := by
  rw [insertAt_eq]
  simp only [List.mem_append, List.mem_cons]
  constructor
  · rintro (h | h | h)
    · exact Or.inr (List.mem_of_mem_take h)
    · exact Or.inl h
    · exact Or.inr (List.mem_of_mem_drop h)
  · rintro (h | h)
    · exact Or.inr (Or.inl h)
    · rcases List.mem_append.mp ((List.take_append_drop k l) ▸ h) with h2 | h2
      · exact Or.inl h2
      · exact Or.inr (Or.inr h2)

lemma modifyAt_insertAt : ∀ (l : List Region) (k : Nat) (r : Region)
    (f : Region → Region), k ≤ l.length →
    modifyAt (insertAt l k r) k f = insertAt l k (f r)
  | l, 0, r, f, _ => by cases l <;> rfl
  | [], j + 1, r, f, h => by simp at h
  | x :: xs, j + 1, r, f, h => by
    simp only [insertAt, modifyAt]
    rw [modifyAt_insertAt xs j r f (by simpa using h)]

lemma allPairs_append (P : Region → Region → Prop) (A B : List Region) :
    allPairs P (A ++ B) ↔
      allPairs P A ∧ allPairs P B ∧ ∀ a ∈ A, ∀ b ∈ B, P a b := by
  induction A with
  | nil => simp [allPairs]
  | cons x A ih =>
    constructor
    · intro h
      have h0 : (∀ s ∈ A ++ B, P x s) ∧ allPairs P (A ++ B) := h
      obtain ⟨hx, hAB⟩ := h0
      obtain ⟨hA, hB, hab⟩ := ih.mp hAB
      refine ⟨⟨fun s hs => hx s (List.mem_append.mpr (Or.inl hs)), hA⟩, hB,
        fun a ha b hb => ?_⟩
      rcases List.mem_cons.mp ha with rfl | ha
      · exact hx b (List.mem_append.mpr (Or.inr hb))
      · exact hab a ha b hb
    · rintro ⟨hxA2, hB, hab⟩
      have hxA : ∀ s ∈ A, P x s := hxA2.1
      have hA : allPairs P A := hxA2.2
      have h0 : allPairs P (A ++ B) :=
        ih.mpr ⟨hA, hB, fun a ha b hb => hab a (List.mem_cons_of_mem x ha) b hb⟩
      show (∀ s ∈ A ++ B, P x s) ∧ allPairs P (A ++ B)
      refine ⟨fun s hs => ?_, h0⟩
      rcases List.mem_append.mp hs with hs | hs
      · exact hxA s hs
      · exact hab x (List.mem_cons_self x A) s hs

lemma allPairs_imp {P Q : Region → Region → Prop} {l : List Region}
    (h : ∀ a ∈ l, ∀ b ∈ l, P a b → Q a b) (hp : allPairs P l) :
    allPairs Q l := by
  induction l with
  | nil => exact True.intro
  | cons x xs ih =>
    exact ⟨fun s hs => h x (by simp) s (by simp [hs]) (hp.1 s hs),
      ih (fun a ha b hb => h a (by simp [ha]) b (by simp [hb])) hp.2⟩

/-- The working invariant implies the three spec-facing region-store
properties. -/
lemma aspaceInv_props {as : Aspace} (h : aspaceInv as) :
    regionsSorted as ∧ regionsDisjoint as ∧ regionsContained as := by
  obtain ⟨hp, hb⟩ := h
  refine ⟨?_, ?_, fun r hr => (hb r hr).2⟩
  · exact allPairs_imp (fun a ha b hb2 hab => by have := (hb a ha).1; omega) hp
  · exact allPairs_imp (fun a _ b _ hab => Or.inl hab) hp

/-- Inserting a region at a position whose prefix lies entirely before it and
whose suffix lies entirely after it preserves the working invariant. -/
lemma insertAt_inv {as : Aspace} {r : Region} {k : Nat}
    (hI : aspaceInv as)
    (h1 : ∀ c ∈ as.regions.take k, c.base + c.size ≤ r.base)
    (h2 : ∀ c ∈ as.regions.drop k, r.base + r.size ≤ c.base)
    (h3 : 0 < r.size) (h4 : as.base ≤ r.base)
    (h5 : r.base + r.size ≤ as.base + as.size) :
    aspaceInv ⟨as.base, as.size, insertAt as.regions k r⟩ := by
  obtain ⟨hp, hb⟩ := hI
  have hsplit : as.regions = as.regions.take k ++ as.regions.drop k :=
    (List.take_append_drop k as.regions).symm
  constructor
  · rw [insertAt_eq]
    rw [hsplit] at hp
    rw [allPairs_append] at hp
    obtain ⟨hpA, hpB, hAB⟩ := hp
    rw [allPairs_append]
    refine ⟨hpA, ⟨fun s hs => h2 s hs, hpB⟩, ?_⟩
    intro a ha b hb2
    rcases List.mem_cons.mp hb2 with rfl | hb2
    · exact h1 a ha
    · exact hAB a ha b hb2
  · intro x hx
    rcases (mem_insertAt _ _ _ _).mp hx with rfl | hx
    · exact ⟨h3, h4, h5⟩
    · exact hb x hx

lemma insertAt_length (l : List Region) (k : Nat) (r : Region) :
    (insertAt l k r).length = l.length + 1 := by
  rw [insertAt_eq]
  simp only [List.length_append, List.length_cons]
  have h1 := List.length_take_le k l
  have := List.length_take k l
  have := List.length_drop k l
  omega

end Vmm

namespace Vmm

lemma wrapEnd_eq {b s : Nat} (h1 : 0 < s) (h2 : b + s ≤ M) :
    (b + s + (M - 1)) % M = b + s - 1 := by
  simp only [M] at *; omega

lemma addFindPos_spec {r : Region} (hr : 0 < r.size) :
    ∀ (l : List Region) (k : Nat),
      allPairs (fun c d => c.base + c.size ≤ d.base) l →
      (∀ c ∈ l, 0 < c.size ∧ c.base + c.size ≤ M) →
      addFindPos r (r.base + r.size - 1) l = some k →
      1 ≤ k ∧ k ≤ l.length ∧
      (∀ c ∈ l.take k, c.base + c.size ≤ r.base) ∧
      (∀ c ∈ l.drop k, r.base + r.size ≤ c.base) := by
  intro l
  induction l with
  | nil => intro k _ _ hsome; simp [addFindPos] at hsome
  | cons last rest ih =>
    intro k hp hall hsome
    obtain ⟨hl1, hl2⟩ := hall last (List.mem_cons_self _ _)
    unfold addFindPos at hsome
    rw [wrapEnd_eq hl1 hl2] at hsome
    by_cases hc : last.base + last.size - 1 < r.base
    · rw [if_pos hc] at hsome
      have hlastr : last.base + last.size ≤ r.base := by omega
      cases hrest : rest with
      | nil =>
        subst hrest
        simp only [Option.some.injEq] at hsome
        subst hsome
        refine ⟨le_refl 1, by simp, fun c hc2 => ?_, fun c hc2 => ?_⟩
        · simp only [List.take_succ_cons, List.take_zero, List.mem_singleton] at hc2
          subst hc2; exact hlastr
        · simp at hc2
      | cons next rest2 =>
        subst hrest
        dsimp only at hsome
        by_cases hc2 : r.base + r.size - 1 < next.base
        · rw [if_pos hc2] at hsome
          simp only [Option.some.injEq] at hsome
          subst hsome
          refine ⟨le_refl 1, by simp, fun c hc3 => ?_, fun c hc3 => ?_⟩
          · simp only [List.take_succ_cons, List.take_zero, List.mem_singleton] at hc3
            subst hc3; exact hlastr
          · simp only [List.drop_succ_cons, List.drop_zero] at hc3
            rcases List.mem_cons.mp hc3 with rfl | hc4
            · omega
            · have hnext := hp.2.1 c hc4
              have hnb := (hall next (by simp)).1
              omega
        · rw [if_neg hc2] at hsome
          simp only [Option.map_eq_some'] at hsome
          obtain ⟨k2, hk2, rfl⟩ := hsome
          obtain ⟨ha1, ha2, ha3, ha4⟩ := ih k2 hp.2
            (fun c hc3 => hall c (List.mem_cons_of_mem _ hc3)) hk2
          refine ⟨by omega, by simp only [List.length_cons] at ha2 ⊢; omega,
            fun c hc3 => ?_, fun c hc3 => ?_⟩
          · simp only [List.take_succ_cons, List.mem_cons] at hc3
            rcases hc3 with rfl | hc3
            · exact hlastr
            · exact ha3 c hc3
          · simp only [List.drop_succ_cons] at hc3
            exact ha4 c hc3
    · rw [if_neg hc] at hsome
      simp only [Option.map_eq_some'] at hsome
      obtain ⟨k2, hk2, rfl⟩ := hsome
      obtain ⟨ha1, ha2, ha3, ha4⟩ := ih k2 hp.2
        (fun c hc3 => hall c (List.mem_cons_of_mem _ hc3)) hk2
      exfalso
      cases hrest : rest with
      | nil => subst hrest; simp [addFindPos] at hk2
      | cons next rest2 =>
        subst hrest
        have hnextmem : next ∈ (next :: rest2).take k2 := by
          cases k2 with
          | zero => omega
          | succ j => simp [List.take_succ_cons]
        have h5 := ha3 next hnextmem
        have h6 := hp.1 next (by simp)
        have h7 := (hall next (by simp)).1
        omega

end Vmm

namespace Vmm

lemma add_region_unchanged (as : Aspace) (r : Region) :
    (add_region_to_aspace as r).1 ≠ Status.NO_ERROR →
    (add_region_to_aspace as r).2.1 = as := by
  unfold add_region_to_aspace
  split_ifs with h1
  · intro _; rfl
  · cases hR : as.regions with
    | nil => intro h; simp at h
    | cons first rest =>
      dsimp only
      split_ifs with h2
      · intro h; simp at h
      · cases hF : addFindPos r ((r.base + r.size + (M - 1)) % M) (first :: rest) with
        | some k => intro h; simp [hF] at h
        | none => intro _; simp [hF]

lemma add_region_success {as : Aspace} {r : Region} (hwf : aspaceWF as)
    (hinv : aspaceInv as) (hszM : r.size < M) {as2 : Aspace} {k : Nat}
    (hres : add_region_to_aspace as r = (Status.NO_ERROR, as2, k)) :
    0 < r.size ∧ as.base ≤ r.base ∧ r.base + r.size ≤ as.base + as.size ∧
    k ≤ as.regions.length ∧
    as2 = ⟨as.base, as.size, insertAt as.regions k r⟩ ∧
    (∀ c ∈ as.regions.take k, c.base + c.size ≤ r.base) ∧
    (∀ c ∈ as.regions.drop k, r.base + r.size ≤ c.base) := by
  unfold add_region_to_aspace at hres
  split_ifs at hres with h1
  · simp at hres
  · simp only [Bool.or_eq_true, beq_iff_eq, Bool.not_eq_true', not_or,
      Bool.not_eq_false] at h1
    obtain ⟨hs0, hreg⟩ := h1
    have hs : 0 < r.size := Nat.pos_of_ne_zero hs0
    have hcont := (is_region_inside_iff hwf hs hszM).mp hreg
    have hrM : r.base + r.size ≤ M := by unfold aspaceWF at hwf; omega
    cases hR : as.regions with
    | nil =>
      rw [hR] at hres
      dsimp only at hres
      simp only [Prod.mk.injEq, true_and] at hres
      obtain ⟨ha, hk⟩ := hres
      subst ha; subst hk
      refine ⟨hs, hcont.1, hcont.2, by simp, rfl, ?_, ?_⟩
      · intro c hc; simp at hc
      · intro c hc; simp at hc
    | cons first rest =>
      rw [hR] at hres
      dsimp only at hres
      rw [wrapEnd_eq hs hrM] at hres
      have hpair : allPairs (fun c d => c.base + c.size ≤ d.base) (first :: rest) := by
        have h9 := hinv.1; rwa [hR] at h9
      have hbnds : ∀ c ∈ first :: rest, 0 < c.size ∧ c.base + c.size ≤ M := by
        intro c hc
        have h9 := hinv.2 c (by rw [hR]; exact hc)
        unfold aspaceWF at hwf
        omega
      by_cases h2 : r.base + r.size - 1 < first.base
      · rw [if_pos h2] at hres
        simp only [Prod.mk.injEq, true_and] at hres
        obtain ⟨ha, hk⟩ := hres
        subst ha; subst hk
        refine ⟨hs, hcont.1, hcont.2, by simp, rfl, ?_, ?_⟩
        · intro c hc; simp at hc
        · intro c hc
          simp only [List.drop_zero] at hc
          rcases List.mem_cons.mp hc with rfl | hc2
          · omega
          · have h9 := hpair.1 c hc2
            have h10 := hbnds first (List.mem_cons_self _ _)
            omega
      · rw [if_neg h2] at hres
        cases hF : addFindPos r (r.base + r.size - 1) (first :: rest) with
        | none => rw [hF] at hres; simp at hres
        | some k2 =>
          rw [hF] at hres
          dsimp only at hres
          simp only [Prod.mk.injEq, true_and] at hres
          obtain ⟨ha, hk⟩ := hres
          subst ha; subst hk
          obtain ⟨hb1, hb2, hb3, hb4⟩ :=
            addFindPos_spec hs (first :: rest) k2 hpair hbnds hF
          exact ⟨hs, hcont.1, hcont.2, hb2, rfl, hb3, hb4⟩

end Vmm

namespace Vmm

lemma add_region_overlap {as : Aspace} {r ex : Region} (hwf : aspaceWF as)
    (hinv : aspaceInv as) (hex : ex ∈ as.regions) (hbase : ex.base = r.base)
    (hr0 : 0 < r.size) (hrM : r.size < M)
    (hc1 : as.base ≤ r.base) (hc2 : r.base + r.size ≤ as.base + as.size) :
    add_region_to_aspace as r = (Status.ERR_NO_MEMORY, as, 0) := by
  have hreg : is_region_inside_aspace as r.base r.size = true :=
    (is_region_inside_iff hwf hr0 hrM).mpr ⟨hc1, hc2⟩
  have hrM2 : r.base + r.size ≤ M := by unfold aspaceWF at hwf; omega
  have hexb := hinv.2 ex hex
  unfold add_region_to_aspace
  rw [if_neg (by simp [hreg]; omega)]
  cases hR : as.regions with
  | nil => rw [hR] at hex; simp at hex
  | cons first rest =>
    rw [hR] at hex
    have hpair : allPairs (fun c d => c.base + c.size ≤ d.base) (first :: rest) := by
      have h9 := hinv.1; rwa [hR] at h9
    have hbnds : ∀ c ∈ first :: rest, 0 < c.size ∧ c.base + c.size ≤ M := by
      intro c hc
      have h9 := hinv.2 c (by rw [hR]; exact hc)
      unfold aspaceWF at hwf
      omega
    dsimp only
    rw [wrapEnd_eq hr0 hrM2]
    have hfb : first.base ≤ r.base := by
      rcases List.mem_cons.mp hex with rfl | hex2
      · omega
      · have h9 := hpair.1 ex hex2
        have h10 := (hbnds ex (List.mem_cons_of_mem _ hex2)).1
        omega
    rw [if_neg (by omega)]
    cases hF : addFindPos r (r.base + r.size - 1) (first :: rest) with
    | some k =>
      exfalso
      obtain ⟨hb1, hb2, hb3, hb4⟩ := addFindPos_spec hr0 (first :: rest) k hpair hbnds hF
      have hsplit := List.take_append_drop k (first :: rest)
      rw [← hsplit] at hex
      rcases List.mem_append.mp hex with hx | hx
      · have h9 := hb3 ex hx
        have h10 := (hbnds ex (by rw [← hsplit]; exact List.mem_append.mpr (Or.inl hx))).1
        omega
      · have h9 := hb4 ex hx
        omega
    | none => rfl

end Vmm

namespace Vmm

lemma take_len_succ : ∀ (pre : List Region) (r : Region) (rest : List Region),
    (pre ++ r :: rest).take (pre.length + 1) = pre ++ [r]
  | [], r, rest => by simp
  | x :: pre, r, rest => by
    simp only [List.cons_append, List.length_cons, List.take_succ_cons,
      take_len_succ pre r rest]

lemma drop_len_succ : ∀ (pre : List Region) (r : Region) (rest : List Region),
    (pre ++ r :: rest).drop (pre.length + 1) = rest
  | [], r, rest => by simp
  | x :: pre, r, rest => by
    simp only [List.cons_append, List.length_cons, List.drop_succ_cons,
      drop_len_succ pre r rest]

end Vmm

namespace Vmm

lemma alignUpN_self {x a : Nat} (ha : 0 < a) (hd : a ∣ x) : alignUpN x a = x :=
  Nat.le_antisymm (alignUpN_le ha hd (le_refl x)) (le_alignUpN x ha)

lemma ALIGN_mod_eq {x a : Nat} (ha : 0 < a) (hd : a ∣ M) (hx : x ≤ M) :
    ALIGN (x % M) a = if alignUpN x a = M then 0 else alignUpN x a := by
  rcases Nat.lt_or_ge x M with h | h
  · rw [Nat.mod_eq_of_lt h]; exact ALIGN_eq ha h hd
  · have hxM : x = M := by omega
    subst hxM
    rw [Nat.mod_self, ALIGN_zero (Nat.le_of_dvd (by simp only [M]; omega) hd)]
    rw [if_pos (alignUpN_self ha hd)]

/-- Abbreviation used repeatedly below: the zero-based working facts of a
well-formed aspace. -/
lemma aspaceWF_elim {as : Aspace} (hwf : aspaceWF as) :
    0 < as.size ∧ as.size < M ∧ as.base + as.size ≤ M := hwf

/-- When the aligned candidate after region r already reaches past the aspace
end, the loop will fail, and correctly so: no valid spot remains. -/
lemma spot_nofit_novalid {as : Aspace} {size align : Nat} {r : Region}
    (hsz : 0 < size) (hal : 0 < align)
    (hrmem : r ∈ as.regions)
    (hI : ∀ s, validSpot as size align s → ¬ (s + size ≤ r.base))
    (hnofit : as.base + as.size ≤ alignUpN (r.base + r.size) align) :
    ∀ s, ¬ validSpot as size align s := by
  intro s hv
  have hlow : r.base + r.size ≤ s := by
    rcases hv.2.2.2 r hrmem with h | h
    · exact absurd h (hI s hv)
    · exact h
  have hgec := alignUpN_le hal hv.1 hlow
  have h2 := hv.2.2.1
  omega

end Vmm

namespace Vmm

lemma spotLoop_spec {as : Aspace} {size align : Nat}
    (hwf : aspaceWF as) (hb : 0 < as.base) (hinv : aspaceInv as)
    (hsz : 0 < size) (hal : 0 < align) (hdvd : align ∣ M) :
    ∀ (rest pre : List Region) (r : Region),
      as.regions = pre ++ r :: rest →
      (∀ s, validSpot as size align s → ¬ (s + size ≤ r.base)) →
      (∀ spot k, spotLoop as size align (r :: rest) pre.length = some (spot, k) →
          validSpot as size align spot ∧
          (∀ s, validSpot as size align s → spot ≤ s) ∧
          k ≤ as.regions.length ∧
          (∀ c ∈ as.regions.take k, c.base + c.size ≤ spot) ∧
          (∀ c ∈ as.regions.drop k, spot + size ≤ c.base)) ∧
      (spotLoop as size align (r :: rest) pre.length = none →
          ∀ s, ¬ validSpot as size align s) := by
  intro rest
  induction rest with
  | nil =>
    intro pre r hR hI
    obtain ⟨hS1, hS2, hS3⟩ := aspaceWF_elim hwf
    have hrmem : r ∈ as.regions := by
      rw [hR]; exact List.mem_append_right _ (List.mem_cons_self _ _)
    obtain ⟨hr1, hr2, hr3⟩ := hinv.2 r hrmem
    have hAB := (allPairs_append _ pre (r :: [])).mp (by rw [← hR]; exact hinv.1)
    have hpre_r : ∀ a ∈ pre, a.base + a.size ≤ r.base :=
      fun a ha => hAB.2.2 a ha r (List.mem_cons_self _ _)
    have hlow : ∀ s, validSpot as size align s → r.base + r.size ≤ s := by
      intro s hv
      rcases hv.2.2.2 r hrmem with h | h
      · exact absurd h (hI s hv)
      · exact h
    have hgec : ∀ s, validSpot as size align s →
        alignUpN (r.base + r.size) align ≤ s :=
      fun s hv => alignUpN_le hal hv.1 (hlow s hv)
    have hcgeb : r.base + r.size ≤ alignUpN (r.base + r.size) align :=
      le_alignUpN _ hal
    have hALmod := ALIGN_mod_eq hal hdvd (show r.base + r.size ≤ M by omega)
    by_cases hcin : alignUpN (r.base + r.size) align ≤ as.base + as.size - 1
    · have hcM : alignUpN (r.base + r.size) align ≠ M := by omega
      have hspot : ALIGN ((r.base + r.size) % M) align =
          alignUpN (r.base + r.size) align := by rw [hALmod, if_neg hcM]
      have hend : (as.base + as.size + (M - 1)) % M = as.base + as.size - 1 :=
        wrapEnd_eq hS1 hS3
      have hin : is_inside_aspace as (alignUpN (r.base + r.size) align) = true := by
        simp only [is_inside_aspace, hend, decide_eq_true_eq]
        refine ⟨by omega, hcin⟩
      have hwsub : wsub ((as.base + as.size) % M) (alignUpN (r.base + r.size) align)
          = as.base + as.size - alignUpN (r.base + r.size) align :=
        wsub_eq (by omega) hS3 (by omega)
      by_cases hfit : size ≤ as.base + as.size - alignUpN (r.base + r.size) align
      · have heval : spotLoop as size align [r] pre.length =
            some (alignUpN (r.base + r.size) align, pre.length + 1) := by
          simp [spotLoop, hspot, hin, hwsub, hfit]
        constructor
        · intro spot k hsome
          rw [heval] at hsome
          simp only [Option.some.injEq, Prod.mk.injEq] at hsome
          obtain ⟨rfl, rfl⟩ := hsome
          have hends : ∀ x ∈ pre ++ [r], x.base + x.size ≤
              alignUpN (r.base + r.size) align := by
            intro x hx
            rcases List.mem_append.mp hx with hx | hx
            · have := hpre_r x hx; omega
            · rcases List.mem_cons.mp hx with rfl | hx
              · omega
              · simp at hx
          refine ⟨⟨alignUpN_dvd _ _, by omega, by omega, ?_⟩, hgec, ?_, ?_, ?_⟩
          · intro x hx
            rw [hR] at hx
            exact Or.inr (hends x hx)
          · rw [hR]; simp
          · rw [hR, take_len_succ]; exact hends
          · rw [hR, drop_len_succ]; intro c hc; simp at hc
        · intro hnone
          rw [heval] at hnone
          simp at hnone
      · have heval : spotLoop as size align [r] pre.length = none := by
          simp [spotLoop, hspot, hin, hwsub, hfit]
        refine ⟨fun spot k hsome => by rw [heval] at hsome; simp at hsome,
          fun _ => ?_⟩
        intro s hv
        have h1 := hgec s hv
        have h2 := hv.2.2.1
        omega
    · have hnofit : as.base + as.size ≤ alignUpN (r.base + r.size) align := by omega
      have hin : is_inside_aspace as (ALIGN ((r.base + r.size) % M) align) = false := by
        rw [hALmod]
        by_cases hcM : alignUpN (r.base + r.size) align = M
        · rw [if_pos hcM]
          simp only [is_inside_aspace, decide_eq_false_iff_not]
          intro hcon
          omega
        · rw [if_neg hcM]
          have hend : (as.base + as.size + (M - 1)) % M = as.base + as.size - 1 :=
            wrapEnd_eq hS1 hS3
          simp only [is_inside_aspace, hend, decide_eq_false_iff_not]
          intro hcon
          omega
      have heval : spotLoop as size align [r] pre.length = none := by
        simp [spotLoop, hin]
      exact ⟨fun spot k hsome => by rw [heval] at hsome; simp at hsome,
        fun _ => spot_nofit_novalid hsz hal hrmem hI hnofit⟩
  | cons next rest2 ih =>
    intro pre r hR hI
    obtain ⟨hS1, hS2, hS3⟩ := aspaceWF_elim hwf
    have hrmem : r ∈ as.regions := by
      rw [hR]; exact List.mem_append_right _ (List.mem_cons_self _ _)
    obtain ⟨hr1, hr2, hr3⟩ := hinv.2 r hrmem
    have hnmem : next ∈ as.regions := by
      rw [hR]
      exact List.mem_append_right _ (List.mem_cons_of_mem _ (List.mem_cons_self _ _))
    obtain ⟨hn1, hn2, hn3⟩ := hinv.2 next hnmem
    have hAB := (allPairs_append _ pre (r :: next :: rest2)).mp (by rw [← hR]; exact hinv.1)
    have hpre_r : ∀ a ∈ pre, a.base + a.size ≤ r.base :=
      fun a ha => hAB.2.2 a ha r (List.mem_cons_self _ _)
    have hr_next : r.base + r.size ≤ next.base := hAB.2.1.1 next (List.mem_cons_self _ _)
    have hnext_r2 : ∀ x ∈ rest2, next.base + next.size ≤ x.base := hAB.2.1.2.1
    have hlow : ∀ s, validSpot as size align s → r.base + r.size ≤ s := by
      intro s hv
      rcases hv.2.2.2 r hrmem with h | h
      · exact absurd h (hI s hv)
      · exact h
    have hgec : ∀ s, validSpot as size align s →
        alignUpN (r.base + r.size) align ≤ s :=
      fun s hv => alignUpN_le hal hv.1 (hlow s hv)
    have hcgeb : r.base + r.size ≤ alignUpN (r.base + r.size) align :=
      le_alignUpN _ hal
    have hALmod := ALIGN_mod_eq hal hdvd (show r.base + r.size ≤ M by omega)
    by_cases hcin : alignUpN (r.base + r.size) align ≤ as.base + as.size - 1
    · have hcM : alignUpN (r.base + r.size) align ≠ M := by omega
      have hspot : ALIGN ((r.base + r.size) % M) align =
          alignUpN (r.base + r.size) align := by rw [hALmod, if_neg hcM]
      have hend : (as.base + as.size + (M - 1)) % M = as.base + as.size - 1 :=
        wrapEnd_eq hS1 hS3
      have hin : is_inside_aspace as (alignUpN (r.base + r.size) align) = true := by
        simp only [is_inside_aspace, hend, decide_eq_true_eq]
        refine ⟨by omega, hcin⟩
      have hR2 : as.regions = (pre ++ [r]) ++ next :: rest2 := by
        rw [hR]; simp
      by_cases hskip : next.base ≤ alignUpN (r.base + r.size) align
      · have heval : spotLoop as size align (r :: next :: rest2) pre.length =
            spotLoop as size align (next :: rest2) (pre.length + 1) := by
          simp [spotLoop, hspot, hin, hskip]
        have hI2 : ∀ s, validSpot as size align s → ¬ (s + size ≤ next.base) := by
          intro s hv hcon
          have h1 := hgec s hv
          omega
        have hIH := ih (pre ++ [r]) next hR2 hI2
        rw [List.length_append, List.length_cons, List.length_nil] at hIH
        rw [heval]
        exact hIH
      · have hnextM : next.base < M := by omega
        have hwsubn : wsub next.base (alignUpN (r.base + r.size) align) =
            next.base - alignUpN (r.base + r.size) align :=
          wsub_plain (by omega) hnextM
        by_cases hfit : size ≤ next.base - alignUpN (r.base + r.size) align
        · have heval : spotLoop as size align (r :: next :: rest2) pre.length =
              some (alignUpN (r.base + r.size) align, pre.length + 1) := by
            simp [spotLoop, hspot, hin, hskip, hwsubn, hfit]
          constructor
          · intro spot k hsome
            rw [heval] at hsome
            simp only [Option.some.injEq, Prod.mk.injEq] at hsome
            obtain ⟨rfl, rfl⟩ := hsome
            have hends : ∀ x ∈ pre ++ [r], x.base + x.size ≤
                alignUpN (r.base + r.size) align := by
              intro x hx
              rcases List.mem_append.mp hx with hx | hx
              · have := hpre_r x hx; omega
              · rcases List.mem_cons.mp hx with rfl | hx
                · omega
                · simp at hx
            have hafter : ∀ x ∈ next :: rest2,
                alignUpN (r.base + r.size) align + size ≤ x.base := by
              intro x hx
              rcases List.mem_cons.mp hx with rfl | hx
              · omega
              · have := hnext_r2 x hx; omega
            refine ⟨⟨alignUpN_dvd _ _, by omega, by omega, ?_⟩, hgec, ?_, ?_, ?_⟩
            · intro x hx
              rw [hR] at hx
              rcases List.mem_append.mp hx with hx | hx
              · exact Or.inr (hends x (List.mem_append.mpr (Or.inl hx)))
              · rcases List.mem_cons.mp hx with rfl | hx
                · exact Or.inr (hends x (List.mem_append.mpr (Or.inr (List.mem_cons_self _ _))))
                · exact Or.inl (hafter x hx)
            · rw [hR]; simp only [List.length_append, List.length_cons]; omega
            · rw [hR, take_len_succ]; exact hends
            · rw [hR, drop_len_succ]; exact hafter
          · intro hnone
            rw [heval] at hnone
            simp at hnone
        · have heval : spotLoop as size align (r :: next :: rest2) pre.length =
              spotLoop as size align (next :: rest2) (pre.length + 1) := by
            simp [spotLoop, hspot, hin, hskip, hwsubn, hfit]
          have hI2 : ∀ s, validSpot as size align s → ¬ (s + size ≤ next.base) := by
            intro s hv hcon
            have h1 := hgec s hv
            omega
          have hIH := ih (pre ++ [r]) next hR2 hI2
          rw [List.length_append, List.length_cons, List.length_nil] at hIH
          rw [heval]
          exact hIH
    · have hnofit : as.base + as.size ≤ alignUpN (r.base + r.size) align := by omega
      have hin : is_inside_aspace as (ALIGN ((r.base + r.size) % M) align) = false := by
        rw [hALmod]
        by_cases hcM : alignUpN (r.base + r.size) align = M
        · rw [if_pos hcM]
          simp only [is_inside_aspace, decide_eq_false_iff_not]
          intro hcon
          omega
        · rw [if_neg hcM]
          have hend : (as.base + as.size + (M - 1)) % M = as.base + as.size - 1 :=
            wrapEnd_eq hS1 hS3
          simp only [is_inside_aspace, hend, decide_eq_false_iff_not]
          intro hcon
          omega
      have heval : spotLoop as size align (r :: next :: rest2) pre.length = none := by
        simp [spotLoop, hin]
      exact ⟨fun spot k hsome => by rw [heval] at hsome; simp at hsome,
        fun _ => spot_nofit_novalid hsz hal hrmem hI hnofit⟩

end Vmm

namespace Vmm

lemma alloc_spot_spec {as : Aspace} {size align_pow2 align : Nat}
    (hwf : aspaceWF as) (hb : 0 < as.base) (hinv : aspaceInv as)
    (hsz : 0 < size) (hap : align_pow2 < 32)
    (halign : align = 2 ^ max align_pow2 PAGE_SIZE_SHIFT) :
    (∀ spot k, alloc_spot as size align_pow2 = some (spot, k) →
        validSpot as size align spot ∧
        (∀ s, validSpot as size align s → spot ≤ s) ∧
        k ≤ as.regions.length ∧
        (∀ c ∈ as.regions.take k, c.base + c.size ≤ spot) ∧
        (∀ c ∈ as.regions.drop k, spot + size ≤ c.base)) ∧
    (alloc_spot as size align_pow2 = none →
        ∀ s, ¬ validSpot as size align s) := by
  obtain ⟨hS1, hS2, hS3⟩ := aspaceWF_elim hwf
  have hal : 0 < align := by
    rw [halign]; exact Nat.pos_pow_of_pos _ (by norm_num)
  have h31 : max align_pow2 PAGE_SIZE_SHIFT ≤ 31 := by
    unfold PAGE_SIZE_SHIFT; omega
  have haltM : align < M := by
    rw [halign]
    calc 2 ^ max align_pow2 PAGE_SIZE_SHIFT ≤ 2 ^ 31 :=
      Nat.pow_le_pow_right (by norm_num) h31
    _ < M := by norm_num [M]
  have hdvd : align ∣ M := by
    rw [halign]
    have h32 : max align_pow2 PAGE_SIZE_SHIFT ≤ 32 := by omega
    have hM : M = 2 ^ 32 := by norm_num [M]
    rw [hM]
    exact pow_dvd_pow 2 h32
  have hamod : (2 ^ max align_pow2 PAGE_SIZE_SHIFT) % M = align := by
    rw [halign]
    exact Nat.mod_eq_of_lt (by rw [← halign]; exact haltM)
  have hbaseM : as.base < M := by omega
  have hAL := ALIGN_eq hal hbaseM hdvd
  have hseed : ∀ s, validSpot as size align s → alignUpN as.base align ≤ s :=
    fun s hv => alignUpN_le hal hv.1 hv.2.1
  have hc0ge : as.base ≤ alignUpN as.base align := le_alignUpN _ hal
  by_cases hcin : alignUpN as.base align ≤ as.base + as.size - 1
  · have hcM : alignUpN as.base align ≠ M := by omega
    have hspot : ALIGN as.base align = alignUpN as.base align := by
      rw [hAL, if_neg hcM]
    have hend : (as.base + as.size + (M - 1)) % M = as.base + as.size - 1 :=
      wrapEnd_eq hS1 hS3
    have hin : is_inside_aspace as (alignUpN as.base align) = true := by
      simp only [is_inside_aspace, hend, decide_eq_true_eq]
      exact ⟨hc0ge, hcin⟩
    cases hRg : as.regions with
    | nil =>
      have hwsub : wsub ((as.base + as.size) % M) (alignUpN as.base align) =
          as.base + as.size - alignUpN as.base align :=
        wsub_eq (by omega) hS3 (by omega)
      by_cases hfit : size ≤ as.base + as.size - alignUpN as.base align
      · have heval : alloc_spot as size align_pow2 =
            some (alignUpN as.base align, 0) := by
          simp [alloc_spot, hamod, hspot, hin, hRg, hwsub, hfit]
        refine ⟨fun spot k hsome => ?_, fun hnone => ?_⟩
        · rw [heval] at hsome
          simp only [Option.some.injEq, Prod.mk.injEq] at hsome
          obtain ⟨rfl, rfl⟩ := hsome
          refine ⟨⟨alignUpN_dvd _ _, hc0ge, by omega, ?_⟩, hseed, by simp, ?_, ?_⟩
          · intro x hx; rw [hRg] at hx; simp at hx
          · intro c hc; simp at hc
          · intro c hc; simp at hc
        · rw [heval] at hnone; simp at hnone
      · have heval : alloc_spot as size align_pow2 = none := by
          simp [alloc_spot, hamod, hspot, hin, hRg, hwsub, hfit]
        refine ⟨fun spot k hsome => by rw [heval] at hsome; simp at hsome,
          fun _ s hv => ?_⟩
        have h1 := hseed s hv
        have h2 := hv.2.2.1
        omega
    | cons r1 rest =>
      have hr1mem : r1 ∈ as.regions := by rw [hRg]; exact List.mem_cons_self _ _
      obtain ⟨hq1, hq2, hq3⟩ := hinv.2 r1 hr1mem
      have hr1M : r1.base < M := by omega
      have hhead : ∀ x ∈ rest, r1.base + r1.size ≤ x.base := by
        have h9 := hinv.1
        rw [hRg] at h9
        exact h9.1
      by_cases hhfit : alignUpN as.base align < r1.base ∧
          size ≤ wsub r1.base (alignUpN as.base align)
      · have hfit2 : alignUpN as.base align + size ≤ r1.base := by
          have h9 := hhfit.2
          rw [wsub_plain (Nat.le_of_lt hhfit.1) hr1M] at h9
          omega
        have heval : alloc_spot as size align_pow2 =
            some (alignUpN as.base align, 0) := by
          simp [alloc_spot, hamod, hspot, hin, hRg, hhfit]
        refine ⟨fun spot k hsome => ?_, fun hnone => ?_⟩
        · rw [heval] at hsome
          simp only [Option.some.injEq, Prod.mk.injEq] at hsome
          obtain ⟨rfl, rfl⟩ := hsome
          have hafter : ∀ x ∈ as.regions, alignUpN as.base align + size ≤ x.base := by
            intro x hx
            rw [hRg] at hx
            rcases List.mem_cons.mp hx with rfl | hx
            · exact hfit2
            · have := hhead x hx; omega
          refine ⟨⟨alignUpN_dvd _ _, hc0ge, by omega, fun x hx => Or.inl (hafter x hx)⟩,
            hseed, by simp, ?_, ?_⟩
          · intro c hc; simp at hc
          · intro c hc
            simp only [List.drop_zero] at hc
            exact hafter c (by rw [hRg]; exact hc)
        · rw [heval] at hnone; simp at hnone
      · have heval : alloc_spot as size align_pow2 =
            spotLoop as size align (r1 :: rest) 0 := by
          simp [alloc_spot, hamod, hspot, hin, hRg, hhfit]
        have hI2 : ∀ s, validSpot as size align s → ¬ (s + size ≤ r1.base) := by
          intro s hv hcon
          have h1 := hseed s hv
          have hlt : alignUpN as.base align < r1.base := by omega
          have hw : wsub r1.base (alignUpN as.base align) =
              r1.base - alignUpN as.base align :=
            wsub_plain (Nat.le_of_lt hlt) hr1M
          exact hhfit ⟨hlt, by rw [hw]; omega⟩
        have hIH := spotLoop_spec hwf hb hinv hsz hal hdvd rest [] r1
          (by simpa using hRg) hI2
        simp only [List.length_nil] at hIH
        rw [hRg] at hIH
        rw [heval]
        exact hIH
  · have hnofit : as.base + as.size ≤ alignUpN as.base align := by omega
    have hin : is_inside_aspace as (ALIGN as.base align) = false := by
      rw [hAL]
      by_cases hcM : alignUpN as.base align = M
      · rw [if_pos hcM]
        simp only [is_inside_aspace, decide_eq_false_iff_not]
        intro hcon
        omega
      · rw [if_neg hcM]
        have hend : (as.base + as.size + (M - 1)) % M = as.base + as.size - 1 :=
          wrapEnd_eq hS1 hS3
        simp only [is_inside_aspace, hend, decide_eq_false_iff_not]
        intro hcon
        omega
    have heval : alloc_spot as size align_pow2 = none := by
      simp [alloc_spot, hamod, hin]
    refine ⟨fun spot k hsome => by rw [heval] at hsome; simp at hsome,
      fun _ s hv => ?_⟩
    have h1 := hseed s hv
    have h2 := hv.2.2.1
    omega

end Vmm

namespace Vmm

lemma ROUNDUP_lt_M (a : Nat) : ROUNDUP a PAGE_SIZE < M := by
  unfold ROUNDUP
  have h1 : (a + (PAGE_SIZE - 1)) % M < M := Nat.mod_lt _ (by simp only [M]; omega)
  have h2 := Nat.div_mul_le_self ((a + (PAGE_SIZE - 1)) % M) PAGE_SIZE
  omega

lemma PAGE_dvd_ROUNDUP (a : Nat) : PAGE_SIZE ∣ ROUNDUP a PAGE_SIZE :=
  Dvd.dvd.mul_left (dvd_refl _) _

lemma alloc_region_spec {as : Aspace} {size vaddr ap2 : Nat} {specific : Bool}
    {rf mf : Nat} (hwf : aspaceWF as) (hb : 0 < as.base) (hinv : aspaceInv as)
    (hsz : 0 < size) (hszM : size < M)
    (hap : specific = false → ap2 < 32) {b k : Nat} {as2 : Aspace}
    (hres : alloc_region as size vaddr ap2 specific rf mf = some (b, k, as2)) :
    k ≤ as.regions.length ∧
    as2 = ⟨as.base, as.size, insertAt as.regions k ⟨b, size, rf, mf, []⟩⟩ ∧
    as.base ≤ b ∧ b + size ≤ as.base + as.size ∧
    (∀ c ∈ as.regions.take k, c.base + c.size ≤ b) ∧
    (∀ c ∈ as.regions.drop k, b + size ≤ c.base) := by
  unfold alloc_region at hres
  cases specific with
  | true =>
    simp only [if_pos] at hres
    rcases hA : add_region_to_aspace as ⟨vaddr, size, rf, mf, []⟩ with ⟨st, as3, k3⟩
    rw [hA] at hres
    cases st with
    | NO_ERROR =>
      simp only [Option.some.injEq, Prod.mk.injEq] at hres
      obtain ⟨hbv, hkv, hav⟩ := hres
      subst hbv; subst hkv; subst hav
      obtain ⟨hc1, hc2, hc3, hc4, hc5, hc6, hc7⟩ :=
        add_region_success hwf hinv hszM hA
      exact ⟨hc4, hc5, hc2, hc3, hc6, hc7⟩
    | ERR_NO_MEMORY => simp at hres
    | ERR_INVALID_ARGS => simp at hres
    | ERR_OUT_OF_RANGE => simp at hres
    | ERR_GENERIC => simp at hres
  | false =>
    simp only [Bool.false_eq_true, if_neg, if_false] at hres
    rcases hS : alloc_spot as size ap2 with _ | ⟨spot, k3⟩
    · rw [hS] at hres; simp at hres
    · rw [hS] at hres
      simp only [Option.some.injEq, Prod.mk.injEq] at hres
      obtain ⟨hbv, hkv, hav⟩ := hres
      subst hbv; subst hkv; subst hav
      obtain ⟨hv, hmin, hlen, htake, hdrop⟩ :=
        (alloc_spot_spec hwf hb hinv hsz (hap rfl) rfl).1 _ _ hS
      exact ⟨hlen, rfl, hv.2.1, hv.2.2.1, htake, hdrop⟩

end Vmm

namespace Vmm

lemma alloc_region_inv {as : Aspace} {size vaddr ap2 : Nat} {specific : Bool}
    {rf mf : Nat} (hwf : aspaceWF as) (hb : 0 < as.base) (hinv : aspaceInv as)
    (hsz : 0 < size) (hszM : size < M)
    (hap : specific = false → ap2 < 32) {b k : Nat} {as2 : Aspace}
    (hres : alloc_region as size vaddr ap2 specific rf mf = some (b, k, as2)) :
    k ≤ as.regions.length ∧
    as2 = ⟨as.base, as.size, insertAt as.regions k ⟨b, size, rf, mf, []⟩⟩ ∧
    ∀ ps : List Nat,
      aspaceInv ⟨as.base, as.size, insertAt as.regions k ⟨b, size, rf, mf, ps⟩⟩ := by
  obtain ⟨h1, h2, h3, h4, h5, h6⟩ :=
    alloc_region_spec hwf hb hinv hsz hszM hap hres
  exact ⟨h1, h2, fun ps => insertAt_inv hinv h5 h6 hsz h3 h4⟩

lemma vmm_reserve_space_inv {st : VmState} {size va qf : Nat}
    (hwf : aspaceWF st.aspace) (hb : 0 < st.aspace.base)
    (hinv : aspaceInv st.aspace) (hszM : size < M) :
    aspaceInv (vmm_reserve_space st size va qf).2.aspace := by
  unfold vmm_reserve_space
  split_ifs with h1 h2 h3
  · exact hinv
  · exact hinv
  · exact hinv
  · simp only [Bool.not_eq_true', Bool.not_eq_false] at h3
    have hcontain := (is_inside_iff hwf va).mp h3
    have ht := trim_spec hwf size hcontain.1 hcontain.2 hszM
    have hsz0 : size ≠ 0 := by
      intro hc; rw [hc] at h1; simp at h1
    have hWF := aspaceWF_elim hwf
    have hbnd : 0 < trim_to_aspace st.aspace va size ∧
        trim_to_aspace st.aspace va size < M := by
      rw [ht]; split_ifs <;> omega
    unfold_let
    rcases hA : alloc_region st.aspace (trim_to_aspace st.aspace va size) va 0
        true VMM_REGION_FLAG_RESERVED qf with _ | ⟨b, k, as2⟩
    · exact hinv
    · obtain ⟨hk, has2, hps⟩ := alloc_region_inv hwf hb hinv hbnd.1 hbnd.2
        (fun h => by simp at h) hA
      show aspaceInv as2
      rw [has2]
      exact hps []

end Vmm

namespace Vmm

lemma vmm_alloc_physical_inv {st : VmState} {size : Nat} {ptr : Option Nat}
    {paddr : Nat} {specific : Bool} {af : Nat} {mr : Status}
    (hwf : aspaceWF st.aspace) (hb : 0 < st.aspace.base)
    (hinv : aspaceInv st.aspace) (hszM : size < M) :
    aspaceInv (vmm_alloc_physical st size ptr paddr specific af mr).2.1.aspace := by
  unfold vmm_alloc_physical
  by_cases h1 : (size == 0) = true
  · rw [if_pos h1]; exact hinv
  · rw [if_neg h1]
    by_cases h2 : (!IS_PAGE_ALIGNED paddr || !IS_PAGE_ALIGNED size) = true
    · rw [if_pos h2]; exact hinv
    · rw [if_neg h2]
      by_cases h3 : (specific && ptr.isNone) = true
      · rw [if_pos h3]; exact hinv
      · rw [if_neg h3]
        have hsz : 0 < size := by
          rcases Nat.eq_zero_or_pos size with rfl | h
          · simp at h1
          · exact h
        unfold_let
        rcases hA : alloc_region st.aspace size (if specific then ptr.getD 0 else 0)
            0 specific VMM_REGION_FLAG_PHYSICAL af with _ | ⟨b, k, as2⟩
        · exact hinv
        · obtain ⟨hk, has2, hps⟩ := alloc_region_inv hwf hb hinv hsz hszM
            (fun _ => by norm_num) hA
          show aspaceInv as2
          rw [has2]
          exact hps []

lemma vmm_alloc_contiguous_inv {st : VmState} {size : Nat} {ptr : Option Nat}
    {align_pow2 : Nat} {specific : Bool} {af grant : Nat} {mr : Status}
    (hwf : aspaceWF st.aspace) (hb : 0 < st.aspace.base)
    (hinv : aspaceInv st.aspace) (hap : specific = false → align_pow2 < 32) :
    aspaceInv
      (vmm_alloc_contiguous st size ptr align_pow2 specific af grant mr).2.1.aspace := by
  unfold vmm_alloc_contiguous
  unfold_let
  by_cases h1 : (ROUNDUP size PAGE_SIZE == 0) = true
  · rw [if_pos h1]; exact hinv
  · rw [if_neg h1]
    by_cases h2 : (specific && ptr.isNone) = true
    · rw [if_pos h2]; exact hinv
    · rw [if_neg h2]
      have hsz : 0 < ROUNDUP size PAGE_SIZE := by
        rcases Nat.eq_zero_or_pos (ROUNDUP size PAGE_SIZE) with h | h
        · rw [h] at h1; simp at h1
        · exact h
      by_cases h3 : (pmm_alloc_contiguous st.pmm (ROUNDUP size PAGE_SIZE / PAGE_SIZE)
          grant).1.length < ROUNDUP size PAGE_SIZE / PAGE_SIZE
      · rw [if_pos h3]; exact hinv
      · rw [if_neg h3]
        rcases hA : alloc_region st.aspace (ROUNDUP size PAGE_SIZE)
            (if specific then ptr.getD 0 else 0) align_pow2 specific
            VMM_REGION_FLAG_PHYSICAL af with _ | ⟨b, k, as2⟩
        · exact hinv
        · obtain ⟨hk, has2, hps⟩ := alloc_region_inv hwf hb hinv hsz
            (ROUNDUP_lt_M size) hap hA
          subst has2
          show aspaceInv ⟨st.aspace.base, st.aspace.size, modifyAt (insertAt _ _ _) k _⟩
          rw [modifyAt_insertAt _ _ _ _ hk]
          exact hps _

lemma vmm_alloc_inv {st : VmState} {size : Nat} {ptr : Option Nat}
    {align_pow2 : Nat} {specific : Bool} {af : Nat} {mr : Nat → Status}
    (hwf : aspaceWF st.aspace) (hb : 0 < st.aspace.base)
    (hinv : aspaceInv st.aspace) (hap : specific = false → align_pow2 < 32) :
    aspaceInv (vmm_alloc st size ptr align_pow2 specific af mr).2.1.aspace := by
  unfold vmm_alloc
  unfold_let
  by_cases h1 : (ROUNDUP size PAGE_SIZE == 0) = true
  · rw [if_pos h1]; exact hinv
  · rw [if_neg h1]
    by_cases h2 : (specific && ptr.isNone) = true
    · rw [if_pos h2]; exact hinv
    · rw [if_neg h2]
      have hsz : 0 < ROUNDUP size PAGE_SIZE := by
        rcases Nat.eq_zero_or_pos (ROUNDUP size PAGE_SIZE) with h | h
        · rw [h] at h1; simp at h1
        · exact h
      by_cases h3 : (pmm_alloc_pages st.pmm
          (ROUNDUP size PAGE_SIZE / PAGE_SIZE)).1.length <
          ROUNDUP size PAGE_SIZE / PAGE_SIZE
      · rw [if_pos h3]; exact hinv
      · rw [if_neg h3]
        rcases hA : alloc_region st.aspace (ROUNDUP size PAGE_SIZE)
            (if specific then ptr.getD 0 else 0) align_pow2 specific
            VMM_REGION_FLAG_PHYSICAL af with _ | ⟨b, k, as2⟩
        · exact hinv
        · obtain ⟨hk, has2, hps⟩ := alloc_region_inv hwf hb hinv hsz
            (ROUNDUP_lt_M size) hap hA
          subst has2
          show aspaceInv ⟨st.aspace.base, st.aspace.size, modifyAt (insertAt _ _ _) k _⟩
          rw [modifyAt_insertAt _ _ _ _ hk]
          exact hps _

end Vmm

namespace Vmm

/-! ## Failure leaves no trace -/

lemma vmm_reserve_space_fail (st : VmState) (size va qf : Nat)
    (h : (vmm_reserve_space st size va qf).1 ≠ Status.NO_ERROR) :
    (vmm_reserve_space st size va qf).2 = st := by
  unfold vmm_reserve_space at h ⊢
  by_cases h1 : (size == 0) = true
  · rw [if_pos h1] at h; exact absurd rfl h
  · rw [if_neg h1] at h ⊢
    by_cases h2 : (!IS_PAGE_ALIGNED va || !IS_PAGE_ALIGNED size) = true
    · rw [if_pos h2]
    · rw [if_neg h2] at h ⊢
      by_cases h3 : (!is_inside_aspace st.aspace va) = true
      · rw [if_pos h3]
      · rw [if_neg h3] at h ⊢
        unfold_let at h ⊢
        rcases hA : alloc_region st.aspace (trim_to_aspace st.aspace va size) va 0
            true VMM_REGION_FLAG_RESERVED qf with _ | ⟨b, k, as2⟩
        · rfl
        · rw [hA] at h
          exact absurd rfl h

lemma vmm_alloc_physical_fail (st : VmState) (size : Nat) (ptr : Option Nat)
    (pa : Nat) (sp : Bool) (af : Nat) (mr : Status)
    (h : (vmm_alloc_physical st size ptr pa sp af mr).1 ≠ Status.NO_ERROR) :
    (vmm_alloc_physical st size ptr pa sp af mr).2.1 = st := by
  unfold vmm_alloc_physical at h ⊢
  by_cases h1 : (size == 0) = true
  · rw [if_pos h1] at h; exact absurd rfl h
  · rw [if_neg h1] at h ⊢
    by_cases h2 : (!IS_PAGE_ALIGNED pa || !IS_PAGE_ALIGNED size) = true
    · rw [if_pos h2]
    · rw [if_neg h2] at h ⊢
      by_cases h3 : (sp && ptr.isNone) = true
      · rw [if_pos h3]
      · rw [if_neg h3] at h ⊢
        unfold_let at h ⊢
        rcases hA : alloc_region st.aspace size (if sp then ptr.getD 0 else 0) 0 sp
            VMM_REGION_FLAG_PHYSICAL af with _ | ⟨b, k, as2⟩
        · rfl
        · rw [hA] at h
          exact absurd rfl h

lemma vmm_alloc_contiguous_fail (st : VmState) (size : Nat) (ptr : Option Nat)
    (ap : Nat) (sp : Bool) (af grant : Nat) (mr : Status)
    (h : (vmm_alloc_contiguous st size ptr ap sp af grant mr).1 ≠ Status.NO_ERROR) :
    (vmm_alloc_contiguous st size ptr ap sp af grant mr).2.1.aspace = st.aspace ∧
    (vmm_alloc_contiguous st size ptr ap sp af grant mr).2.1.mmu = st.mmu := by
  unfold vmm_alloc_contiguous at h ⊢
  unfold_let at h ⊢
  by_cases h1 : (ROUNDUP size PAGE_SIZE == 0) = true
  · rw [if_pos h1]; exact ⟨rfl, rfl⟩
  · rw [if_neg h1] at h ⊢
    by_cases h2 : (sp && ptr.isNone) = true
    · rw [if_pos h2]; exact ⟨rfl, rfl⟩
    · rw [if_neg h2] at h ⊢
      by_cases h3 : (pmm_alloc_contiguous st.pmm (ROUNDUP size PAGE_SIZE / PAGE_SIZE)
          grant).1.length < ROUNDUP size PAGE_SIZE / PAGE_SIZE
      · rw [if_pos h3]; exact ⟨rfl, rfl⟩
      · rw [if_neg h3] at h ⊢
        rcases hA : alloc_region st.aspace (ROUNDUP size PAGE_SIZE)
            (if sp then ptr.getD 0 else 0) ap sp VMM_REGION_FLAG_PHYSICAL af
            with _ | ⟨b, k, as2⟩
        · exact ⟨rfl, rfl⟩
        · rw [hA] at h
          exact absurd rfl h

lemma vmm_alloc_fail (st : VmState) (size : Nat) (ptr : Option Nat)
    (ap : Nat) (sp : Bool) (af : Nat) (mr : Nat → Status)
    (h : (vmm_alloc st size ptr ap sp af mr).1 ≠ Status.NO_ERROR) :
    (vmm_alloc st size ptr ap sp af mr).2.1.aspace = st.aspace ∧
    (vmm_alloc st size ptr ap sp af mr).2.1.mmu = st.mmu := by
  unfold vmm_alloc at h ⊢
  unfold_let at h ⊢
  by_cases h1 : (ROUNDUP size PAGE_SIZE == 0) = true
  · rw [if_pos h1]; exact ⟨rfl, rfl⟩
  · rw [if_neg h1] at h ⊢
    by_cases h2 : (sp && ptr.isNone) = true
    · rw [if_pos h2]; exact ⟨rfl, rfl⟩
    · rw [if_neg h2] at h ⊢
      by_cases h3 : (pmm_alloc_pages st.pmm
          (ROUNDUP size PAGE_SIZE / PAGE_SIZE)).1.length <
          ROUNDUP size PAGE_SIZE / PAGE_SIZE
      · rw [if_pos h3]; exact ⟨rfl, rfl⟩
      · rw [if_neg h3] at h ⊢
        rcases hA : alloc_region st.aspace (ROUNDUP size PAGE_SIZE)
            (if sp then ptr.getD 0 else 0) ap sp VMM_REGION_FLAG_PHYSICAL af
            with _ | ⟨b, k, as2⟩
        · exact ⟨rfl, rfl⟩
        · rw [hA] at h
          exact absurd rfl h

end Vmm

namespace Vmm

lemma add_region_shape {as : Aspace} {r : Region} {as2 : Aspace} {k : Nat}
    (h : add_region_to_aspace as r = (Status.NO_ERROR, as2, k)) :
    as2 = ⟨as.base, as.size, insertAt as.regions k r⟩ := by
  unfold add_region_to_aspace at h
  split_ifs at h with h1
  · simp at h
  · cases hR : as.regions with
    | nil =>
      rw [hR] at h; dsimp only at h
      simp only [Prod.mk.injEq, true_and] at h
      obtain ⟨ha, hk⟩ := h
      subst hk
      rw [← ha]
      rfl
    | cons first rest =>
      rw [hR] at h; dsimp only at h
      split_ifs at h with h2
      · simp only [Prod.mk.injEq, true_and] at h
        obtain ⟨ha, hk⟩ := h
        subst hk
        rw [← ha]
        rfl
      · cases hF : addFindPos r ((r.base + r.size + (M - 1)) % M) (first :: rest) with
        | none => rw [hF] at h; simp at h
        | some k2 =>
          rw [hF] at h; dsimp only at h
          simp only [Prod.mk.injEq, true_and] at h
          obtain ⟨ha, hk⟩ := h
          subst hk
          rw [← ha]

lemma PAGE_dvd_pow_mod (ap : Nat) : PAGE_SIZE ∣ (2 ^ max ap PAGE_SIZE_SHIFT) % M := by
  rcases Nat.lt_or_ge (max ap PAGE_SIZE_SHIFT) 32 with h | h
  · rw [Nat.mod_eq_of_lt]
    · have h12 : PAGE_SIZE_SHIFT ≤ max ap PAGE_SIZE_SHIFT := le_max_right _ _
      have hP : PAGE_SIZE = 2 ^ PAGE_SIZE_SHIFT := by norm_num [PAGE_SIZE, PAGE_SIZE_SHIFT]
      rw [hP]
      exact pow_dvd_pow 2 h12
    · calc 2 ^ max ap PAGE_SIZE_SHIFT ≤ 2 ^ 31 :=
        Nat.pow_le_pow_right (by norm_num) (by omega)
      _ < M := by norm_num [M]
  · obtain ⟨c, hc⟩ : M ∣ 2 ^ max ap PAGE_SIZE_SHIFT := by
      have hM : M = 2 ^ 32 := by norm_num [M]
      rw [hM]
      exact pow_dvd_pow 2 h
    rw [hc, Nat.mul_mod_right]
    exact dvd_zero _

lemma spotLoop_page_aligned {as : Aspace} {size align : Nat}
    (hd : PAGE_SIZE ∣ align) :
    ∀ (l : List Region) (idx spot k : Nat),
      spotLoop as size align l idx = some (spot, k) → PAGE_SIZE ∣ spot := by
  intro l
  induction l with
  | nil => intro idx spot k h; simp [spotLoop] at h
  | cons r rest ih =>
    intro idx spot k h
    unfold spotLoop at h
    unfold_let at h
    by_cases hin : (!(is_inside_aspace as (ALIGN ((r.base + r.size) % M) align))) = true
    · rw [if_pos hin] at h; exact Option.noConfusion h
    · rw [if_neg hin] at h
      cases rest with
      | nil =>
        dsimp only at h
        by_cases hfit : size ≤
            wsub ((as.base + as.size) % M) (ALIGN ((r.base + r.size) % M) align)
        · rw [if_pos hfit] at h
          simp only [Option.some.injEq, Prod.mk.injEq] at h
          obtain ⟨h1, h2⟩ := h
          rw [← h1]
          exact PAGE_dvd_ALIGN hd
        · rw [if_neg hfit] at h; exact Option.noConfusion h
      | cons next rest2 =>
        dsimp only at h
        by_cases hskip : next.base ≤ ALIGN ((r.base + r.size) % M) align
        · rw [if_pos hskip] at h; exact ih _ _ _ h
        · rw [if_neg hskip] at h
          by_cases hfit : size ≤ wsub next.base (ALIGN ((r.base + r.size) % M) align)
          · rw [if_pos hfit] at h
            simp only [Option.some.injEq, Prod.mk.injEq] at h
            obtain ⟨h1, h2⟩ := h
            rw [← h1]
            exact PAGE_dvd_ALIGN hd
          · rw [if_neg hfit] at h; exact ih _ _ _ h

end Vmm

namespace Vmm

lemma alloc_spot_page_aligned {as : Aspace} {size ap : Nat} {spot k : Nat}
    (h : alloc_spot as size ap = some (spot, k)) : PAGE_SIZE ∣ spot := by
  have hd : PAGE_SIZE ∣ (2 ^ max ap PAGE_SIZE_SHIFT) % M := PAGE_dvd_pow_mod ap
  unfold alloc_spot at h
  unfold_let at h
  by_cases hin : (!(is_inside_aspace as
      (ALIGN as.base ((2 ^ max ap PAGE_SIZE_SHIFT) % M)))) = true
  · rw [if_pos hin] at h; exact Option.noConfusion h
  · rw [if_neg hin] at h
    cases hR : as.regions with
    | nil =>
      rw [hR] at h
      dsimp only at h
      by_cases hfit : size ≤ wsub ((as.base + as.size) % M)
          (ALIGN as.base ((2 ^ max ap PAGE_SIZE_SHIFT) % M))
      · rw [if_pos hfit] at h
        simp only [Option.some.injEq, Prod.mk.injEq] at h
        obtain ⟨h1, h2⟩ := h
        rw [← h1]
        exact PAGE_dvd_ALIGN hd
      · rw [if_neg hfit] at h; exact Option.noConfusion h
    | cons r1 rest =>
      rw [hR] at h
      dsimp only at h
      by_cases hhd : ALIGN as.base ((2 ^ max ap PAGE_SIZE_SHIFT) % M) < r1.base ∧
          size ≤ wsub r1.base (ALIGN as.base ((2 ^ max ap PAGE_SIZE_SHIFT) % M))
      · rw [if_pos hhd] at h
        simp only [Option.some.injEq, Prod.mk.injEq] at h
        obtain ⟨h1, h2⟩ := h
        rw [← h1]
        exact PAGE_dvd_ALIGN hd
      · rw [if_neg hhd] at h
        exact spotLoop_page_aligned hd _ _ _ _ h

lemma alloc_region_shape {as : Aspace} {size vaddr ap : Nat} {sp : Bool}
    {rf mf : Nat} {b k : Nat} {as2 : Aspace}
    (h : alloc_region as size vaddr ap sp rf mf = some (b, k, as2)) :
    as2 = ⟨as.base, as.size, insertAt as.regions k ⟨b, size, rf, mf, []⟩⟩ ∧
    (sp = true → b = vaddr) ∧ (sp = false → PAGE_SIZE ∣ b) := by
  unfold alloc_region at h
  unfold_let at h
  cases sp with
  | true =>
    rw [if_pos rfl] at h
    rcases hA : add_region_to_aspace as ⟨vaddr, size, rf, mf, []⟩ with ⟨st2, as3, k3⟩
    rw [hA] at h
    cases st2 with
    | NO_ERROR =>
      simp only [Option.some.injEq, Prod.mk.injEq] at h
      obtain ⟨hb, hk, ha⟩ := h
      subst hb; subst hk; subst ha
      refine ⟨?_, fun _ => rfl, fun hc => Bool.noConfusion hc⟩
      exact add_region_shape hA
    | ERR_NO_MEMORY => exact Option.noConfusion h
    | ERR_INVALID_ARGS => exact Option.noConfusion h
    | ERR_OUT_OF_RANGE => exact Option.noConfusion h
    | ERR_GENERIC => exact Option.noConfusion h
  | false =>
    rw [if_neg (by simp)] at h
    rcases hS : alloc_spot as size ap with _ | ⟨spot, k3⟩
    · rw [hS] at h; exact Option.noConfusion h
    · rw [hS] at h
      simp only [Option.some.injEq, Prod.mk.injEq] at h
      obtain ⟨hb, hk, ha⟩ := h
      subst hb; subst hk
      refine ⟨ha.symm, fun hc => Bool.noConfusion hc, fun _ => ?_⟩
      exact alloc_spot_page_aligned hS

end Vmm

namespace Vmm

lemma mem_modifyAt : ∀ (l : List Region) (i : Nat) (f : Region → Region)
    (x : Region), x ∈ modifyAt l i f → x ∈ l ∨ ∃ y ∈ l, x = f y
  | [], _, _, _, h => by simp [modifyAt] at h
  | a :: xs, 0, f, x, h => by
    rcases List.mem_cons.mp h with rfl | h2
    · exact Or.inr ⟨a, List.mem_cons_self _ _, rfl⟩
    · exact Or.inl (List.mem_cons_of_mem _ h2)
  | a :: xs, j + 1, f, x, h => by
    rcases List.mem_cons.mp h with rfl | h2
    · exact Or.inl (List.mem_cons_self _ _)
    · rcases mem_modifyAt xs j f x h2 with h3 | ⟨y, hy, h3⟩
      · exact Or.inl (List.mem_cons_of_mem _ h3)
      · exact Or.inr ⟨y, List.mem_cons_of_mem _ hy, h3⟩

lemma IS_PAGE_ALIGNED_iff (x : Nat) : IS_PAGE_ALIGNED x = true ↔ PAGE_SIZE ∣ x := by
  unfold IS_PAGE_ALIGNED
  simp only [beq_iff_eq]
  constructor
  · exact fun h => Nat.dvd_of_mod_eq_zero h
  · rintro ⟨c, rfl⟩
    exact Nat.mul_mod_right _ _

/-- Alignment facts about every region of a list: page-aligned size, positive
size, and page-aligned base. -/
def regionsAligned (l : List Region) : Prop :=
  ∀ r ∈ l, PAGE_SIZE ∣ r.base ∧ PAGE_SIZE ∣ r.size ∧ 0 < r.size

instance (l : List Region) : Decidable (regionsAligned l) :=
  inferInstanceAs (Decidable (∀ r ∈ l, _ ∧ _ ∧ _))

lemma vmm_reserve_space_aligned {st : VmState} {size va qf : Nat}
    (hwf : aspaceWF st.aspace)
    (hbA : PAGE_SIZE ∣ st.aspace.base) (hsA : PAGE_SIZE ∣ st.aspace.size)
    (hszM : size < M) (hpre : regionsAligned st.aspace.regions) :
    regionsAligned (vmm_reserve_space st size va qf).2.aspace.regions := by
  unfold vmm_reserve_space
  by_cases h1 : (size == 0) = true
  · rw [if_pos h1]; exact hpre
  · rw [if_neg h1]
    by_cases h2 : (!IS_PAGE_ALIGNED va || !IS_PAGE_ALIGNED size) = true
    · rw [if_pos h2]; exact hpre
    · rw [if_neg h2]
      simp only [Bool.or_eq_true, Bool.not_eq_true', not_or,
        Bool.not_eq_false] at h2
      have hva : PAGE_SIZE ∣ va := (IS_PAGE_ALIGNED_iff va).mp h2.1
      have hvs : PAGE_SIZE ∣ size := (IS_PAGE_ALIGNED_iff size).mp h2.2
      by_cases h3 : (!is_inside_aspace st.aspace va) = true
      · rw [if_pos h3]; exact hpre
      · rw [if_neg h3]
        simp only [Bool.not_eq_true', Bool.not_eq_false] at h3
        have hcontain := (is_inside_iff hwf va).mp h3
        have ht := trim_spec hwf size hcontain.1 hcontain.2 hszM
        have hWF := aspaceWF_elim hwf
        have hsz0 : size ≠ 0 := by
          intro hc; rw [hc] at h1; simp at h1
        have hto : PAGE_SIZE ∣ va - st.aspace.base := Nat.dvd_sub' hva hbA
        have htd : PAGE_SIZE ∣ trim_to_aspace st.aspace va size ∧
            0 < trim_to_aspace st.aspace va size := by
          rw [ht]
          split_ifs with hc1 hc2
          · omega
          · exact ⟨Nat.dvd_sub' hsA hto, by omega⟩
          · exact ⟨hvs, by omega⟩
        unfold_let
        rcases hA : alloc_region st.aspace (trim_to_aspace st.aspace va size) va 0
            true VMM_REGION_FLAG_RESERVED qf with _ | ⟨b, k, as2⟩
        · exact hpre
        · obtain ⟨hshape, hbspec, _⟩ := alloc_region_shape hA
          have hbva : b = va := hbspec rfl
          show regionsAligned as2.regions
          rw [hshape]
          intro x hx
          rcases (mem_insertAt _ _ _ _).mp hx with rfl | hx
          · exact ⟨by rw [hbva]; exact hva, htd.1, htd.2⟩
          · exact hpre x hx

end Vmm

namespace Vmm

lemma vmm_alloc_physical_aligned {st : VmState} {size : Nat} {ptr : Option Nat}
    {pa : Nat} {sp : Bool} {af : Nat} {mr : Status}
    (hpre : regionsAligned st.aspace.regions) :
    (∀ r ∈ (vmm_alloc_physical st size ptr pa sp af mr).2.1.aspace.regions,
        PAGE_SIZE ∣ r.size ∧ 0 < r.size) ∧
    ((sp = true → PAGE_SIZE ∣ ptr.getD 0) →
      regionsAligned (vmm_alloc_physical st size ptr pa sp af mr).2.1.aspace.regions) := by
  unfold vmm_alloc_physical
  by_cases h1 : (size == 0) = true
  · rw [if_pos h1]
    exact ⟨fun r hr => ⟨(hpre r hr).2.1, (hpre r hr).2.2⟩, fun _ => hpre⟩
  · rw [if_neg h1]
    by_cases h2 : (!IS_PAGE_ALIGNED pa || !IS_PAGE_ALIGNED size) = true
    · rw [if_pos h2]
      exact ⟨fun r hr => ⟨(hpre r hr).2.1, (hpre r hr).2.2⟩, fun _ => hpre⟩
    · rw [if_neg h2]
      simp only [Bool.or_eq_true, Bool.not_eq_true', not_or,
        Bool.not_eq_false] at h2
      have hvs : PAGE_SIZE ∣ size := (IS_PAGE_ALIGNED_iff size).mp h2.2
      have hsz : 0 < size := by
        rcases Nat.eq_zero_or_pos size with rfl | h
        · simp at h1
        · exact h
      by_cases h3 : (sp && ptr.isNone) = true
      · rw [if_pos h3]
        exact ⟨fun r hr => ⟨(hpre r hr).2.1, (hpre r hr).2.2⟩, fun _ => hpre⟩
      · rw [if_neg h3]
        unfold_let
        rcases hA : alloc_region st.aspace size (if sp then ptr.getD 0 else 0) 0 sp
            VMM_REGION_FLAG_PHYSICAL af with _ | ⟨b, k, as2⟩
        · exact ⟨fun r hr => ⟨(hpre r hr).2.1, (hpre r hr).2.2⟩, fun _ => hpre⟩
        · obtain ⟨hshape, hbsp, hbdy⟩ := alloc_region_shape hA
          have hprov : ∀ x ∈ as2.regions,
              x = (⟨b, size, VMM_REGION_FLAG_PHYSICAL, af, []⟩ : Region) ∨
              x ∈ st.aspace.regions := by
            intro x hx
            rw [hshape] at hx
            exact (mem_insertAt _ _ _ _).mp hx
          constructor
          · intro x hx
            rcases hprov x hx with rfl | hx2
            · exact ⟨hvs, hsz⟩
            · exact ⟨(hpre x hx2).2.1, (hpre x hx2).2.2⟩
          · intro hptr x hx
            have hbdvd : PAGE_SIZE ∣ b := by
              cases sp with
              | true =>
                rw [hbsp rfl, if_pos rfl]
                exact hptr rfl
              | false => exact hbdy rfl
            rcases hprov x hx with rfl | hx2
            · exact ⟨hbdvd, hvs, hsz⟩
            · exact hpre x hx2

lemma vmm_alloc_contiguous_aligned {st : VmState} {size : Nat} {ptr : Option Nat}
    {ap : Nat} {sp : Bool} {af grant : Nat} {mr : Status}
    (hpre : regionsAligned st.aspace.regions) :
    (∀ r ∈ (vmm_alloc_contiguous st size ptr ap sp af grant mr).2.1.aspace.regions,
        PAGE_SIZE ∣ r.size ∧ 0 < r.size) ∧
    ((sp = true → PAGE_SIZE ∣ ptr.getD 0) →
      regionsAligned
        (vmm_alloc_contiguous st size ptr ap sp af grant mr).2.1.aspace.regions) := by
  unfold vmm_alloc_contiguous
  unfold_let
  by_cases h1 : (ROUNDUP size PAGE_SIZE == 0) = true
  · rw [if_pos h1]
    exact ⟨fun r hr => ⟨(hpre r hr).2.1, (hpre r hr).2.2⟩, fun _ => hpre⟩
  · rw [if_neg h1]
    have hsz : 0 < ROUNDUP size PAGE_SIZE := by
      rcases Nat.eq_zero_or_pos (ROUNDUP size PAGE_SIZE) with h | h
      · rw [h] at h1; simp at h1
      · exact h
    by_cases h2 : (sp && ptr.isNone) = true
    · rw [if_pos h2]
      exact ⟨fun r hr => ⟨(hpre r hr).2.1, (hpre r hr).2.2⟩, fun _ => hpre⟩
    · rw [if_neg h2]
      by_cases h3 : (pmm_alloc_contiguous st.pmm (ROUNDUP size PAGE_SIZE / PAGE_SIZE)
          grant).1.length < ROUNDUP size PAGE_SIZE / PAGE_SIZE
      · rw [if_pos h3]
        exact ⟨fun r hr => ⟨(hpre r hr).2.1, (hpre r hr).2.2⟩, fun _ => hpre⟩
      · rw [if_neg h3]
        rcases hA : alloc_region st.aspace (ROUNDUP size PAGE_SIZE)
            (if sp then ptr.getD 0 else 0) ap sp VMM_REGION_FLAG_PHYSICAL af
            with _ | ⟨b, k, as2⟩
        · exact ⟨fun r hr => ⟨(hpre r hr).2.1, (hpre r hr).2.2⟩, fun _ => hpre⟩
        · obtain ⟨hshape, hbsp, hbdy⟩ := alloc_region_shape hA
          have hprov : ∀ x ∈ modifyAt as2.regions k
              (fun r => (⟨r.base, r.size, r.flags, r.arch_mmu_flags,
                (pmm_alloc_contiguous st.pmm (ROUNDUP size PAGE_SIZE / PAGE_SIZE)
                  grant).1⟩ : Region)),
              (x.base = b ∧ x.size = ROUNDUP size PAGE_SIZE) ∨
              ∃ y ∈ st.aspace.regions, x.base = y.base ∧ x.size = y.size := by
            intro x hx
            rcases mem_modifyAt _ _ _ _ hx with hx2 | ⟨y, hy, hx2⟩
            · rw [hshape] at hx2
              rcases (mem_insertAt _ _ _ _).mp hx2 with rfl | hx3
              · exact Or.inl ⟨rfl, rfl⟩
              · exact Or.inr ⟨x, hx3, rfl, rfl⟩
            · rw [hshape] at hy
              subst hx2
              rcases (mem_insertAt _ _ _ _).mp hy with rfl | hy2
              · exact Or.inl ⟨rfl, rfl⟩
              · exact Or.inr ⟨y, hy2, rfl, rfl⟩
          constructor
          · intro x hx
            rcases hprov x hx with ⟨hxb, hxs⟩ | ⟨y, hy, hb2, hs2⟩
            · rw [hxs]; exact ⟨PAGE_dvd_ROUNDUP size, hsz⟩
            · rw [hs2]; exact ⟨(hpre y hy).2.1, (hpre y hy).2.2⟩
          · intro hptr x hx
            have hbdvd : PAGE_SIZE ∣ b := by
              cases sp with
              | true =>
                rw [hbsp rfl, if_pos rfl]
                exact hptr rfl
              | false => exact hbdy rfl
            rcases hprov x hx with ⟨hxb, hxs⟩ | ⟨y, hy, hb2, hs2⟩
            · rw [hxb, hxs]; exact ⟨hbdvd, PAGE_dvd_ROUNDUP size, hsz⟩
            · rw [hb2, hs2]; exact hpre y hy

lemma vmm_alloc_aligned {st : VmState} {size : Nat} {ptr : Option Nat}
    {ap : Nat} {sp : Bool} {af : Nat} {mr : Nat → Status}
    (hpre : regionsAligned st.aspace.regions) :
    (∀ r ∈ (vmm_alloc st size ptr ap sp af mr).2.1.aspace.regions,
        PAGE_SIZE ∣ r.size ∧ 0 < r.size) ∧
    ((sp = true → PAGE_SIZE ∣ ptr.getD 0) →
      regionsAligned (vmm_alloc st size ptr ap sp af mr).2.1.aspace.regions) := by
  unfold vmm_alloc
  unfold_let
  by_cases h1 : (ROUNDUP size PAGE_SIZE == 0) = true
  · rw [if_pos h1]
    exact ⟨fun r hr => ⟨(hpre r hr).2.1, (hpre r hr).2.2⟩, fun _ => hpre⟩
  · rw [if_neg h1]
    have hsz : 0 < ROUNDUP size PAGE_SIZE := by
      rcases Nat.eq_zero_or_pos (ROUNDUP size PAGE_SIZE) with h | h
      · rw [h] at h1; simp at h1
      · exact h
    by_cases h2 : (sp && ptr.isNone) = true
    · rw [if_pos h2]
      exact ⟨fun r hr => ⟨(hpre r hr).2.1, (hpre r hr).2.2⟩, fun _ => hpre⟩
    · rw [if_neg h2]
      by_cases h3 : (pmm_alloc_pages st.pmm
          (ROUNDUP size PAGE_SIZE / PAGE_SIZE)).1.length <
          ROUNDUP size PAGE_SIZE / PAGE_SIZE
      · rw [if_pos h3]
        exact ⟨fun r hr => ⟨(hpre r hr).2.1, (hpre r hr).2.2⟩, fun _ => hpre⟩
      · rw [if_neg h3]
        rcases hA : alloc_region st.aspace (ROUNDUP size PAGE_SIZE)
            (if sp then ptr.getD 0 else 0) ap sp VMM_REGION_FLAG_PHYSICAL af
            with _ | ⟨b, k, as2⟩
        · exact ⟨fun r hr => ⟨(hpre r hr).2.1, (hpre r hr).2.2⟩, fun _ => hpre⟩
        · obtain ⟨hshape, hbsp, hbdy⟩ := alloc_region_shape hA
          have hprov : ∀ x ∈ modifyAt as2.regions k
              (fun r => (⟨r.base, r.size, r.flags, r.arch_mmu_flags,
                (pmm_alloc_pages st.pmm
                  (ROUNDUP size PAGE_SIZE / PAGE_SIZE)).1⟩ : Region)),
              (x.base = b ∧ x.size = ROUNDUP size PAGE_SIZE) ∨
              ∃ y ∈ st.aspace.regions, x.base = y.base ∧ x.size = y.size := by
            intro x hx
            rcases mem_modifyAt _ _ _ _ hx with hx2 | ⟨y, hy, hx2⟩
            · rw [hshape] at hx2
              rcases (mem_insertAt _ _ _ _).mp hx2 with rfl | hx3
              · exact Or.inl ⟨rfl, rfl⟩
              · exact Or.inr ⟨x, hx3, rfl, rfl⟩
            · rw [hshape] at hy
              subst hx2
              rcases (mem_insertAt _ _ _ _).mp hy with rfl | hy2
              · exact Or.inl ⟨rfl, rfl⟩
              · exact Or.inr ⟨y, hy2, rfl, rfl⟩
          constructor
          · intro x hx
            rcases hprov x hx with ⟨hxb, hxs⟩ | ⟨y, hy, hb2, hs2⟩
            · rw [hxs]; exact ⟨PAGE_dvd_ROUNDUP size, hsz⟩
            · rw [hs2]; exact ⟨(hpre y hy).2.1, (hpre y hy).2.2⟩
          · intro hptr x hx
            have hbdvd : PAGE_SIZE ∣ b := by
              cases sp with
              | true =>
                rw [hbsp rfl, if_pos rfl]
                exact hptr rfl
              | false => exact hbdy rfl
            rcases hprov x hx with ⟨hxb, hxs⟩ | ⟨y, hy, hb2, hs2⟩
            · rw [hxb, hxs]; exact ⟨hbdvd, PAGE_dvd_ROUNDUP size, hsz⟩
            · rw [hb2, hs2]; exact hpre y hy

end Vmm

namespace Vmm

/-! ## Concrete states used by the claims (page size 4096, kernel aspace
[0x10000000, 0x10100000), four free pages in the mocked pmm) -/

def kasp : Aspace := ⟨0x10000000, 0x100000, []⟩

def pmem0 : List Nat := [0x40000000, 0x40001000, 0x40002000, 0x40003000]

def st0 : VmState := ⟨kasp, pmem0, []⟩

/-- Scenario 1 of the spec: alloc(size=0x2000, align=12) on the empty kernel
aspace. -/
def run1 : Status × VmState × Option Nat :=
  vmm_alloc st0 0x2000 (some 0x99) 12 false 0 (fun _ => Status.NO_ERROR)

def st1 : VmState := run1.2.1

/-- Scenario 3 of the spec: alloc(size=0x1000, align=16) after scenario 1. -/
def run2 : Status × VmState × Option Nat :=
  vmm_alloc st1 0x1000 (some 0x99) 16 false 0 (fun _ => Status.NO_ERROR)

/-- An aspace starting at virtual address 0 whose last region ends near the
top of the address space: the aligned candidate after it wraps to 0. -/
def asZero : Aspace :=
  ⟨0, 0xFFFFF000,
    [⟨0, 0x1000, VMM_REGION_FLAG_PHYSICAL, 0, []⟩,
     ⟨0x80000000, 0x1000, VMM_REGION_FLAG_PHYSICAL, 0, []⟩]⟩

def stZero : VmState := ⟨asZero, pmem0, []⟩

/-- A kernel aspace holding one reservation at 0x10008000. -/
def stRes : VmState :=
  ⟨⟨0x10000000, 0x100000, [⟨0x10008000, 0x1000, VMM_REGION_FLAG_RESERVED, 0, []⟩]⟩, [], []⟩

def runLeak : Status × VmState × Option Nat :=
  vmm_alloc_contiguous st0 0x4000 (some 0x99) 12 false 0 1 Status.NO_ERROR

def runUnaligned : Status × VmState × Option Nat :=
  vmm_alloc_contiguous st0 0x1000 (some 0x10000100) 0 true 0 1 Status.NO_ERROR

/-! ## Claims -/

/-- C1: when the pmm returns fewer contiguous pages than requested (here 1 of
4), vmm_alloc_contiguous does return ERR_NO_MEMORY and creates no region, but
the partial-failure path jumps to the label after pmm_free, so the granted
page is never returned: the pmm free-page count drops from 4 to 3.  This
evaluates the code at the failing input of the code_bug. -/
theorem vmm_alloc_contiguous_partial_leak :
    runLeak.1 = Status.ERR_NO_MEMORY ∧
    runLeak.2.1.aspace = st0.aspace ∧
    st0.pmm.length = 4 ∧ runLeak.2.1.pmm.length = 3 := by decide

/-- C2 (counterexample): for an address space based at virtual address 0, a
successful vmm_alloc can break the sortedness and disjointness invariant: the
aligned candidate after the last region wraps to 0, passes is_inside_aspace,
and the new region is inserted after the last region while overlapping the
first. -/
theorem vmm_alloc_breaks_sorted_at_zero_base :
    aspaceWF asZero ∧ aspaceInv asZero ∧
    (vmm_alloc stZero 0x1000 none 31 false 0 (fun _ => Status.NO_ERROR)).1 =
      Status.NO_ERROR ∧
    ¬ regionsSorted
      (vmm_alloc stZero 0x1000 none 31 false 0 (fun _ => Status.NO_ERROR)).2.1.aspace ∧
    ¬ regionsDisjoint
      (vmm_alloc stZero 0x1000 none 31 false 0 (fun _ => Status.NO_ERROR)).2.1.aspace := by
  decide

/-- C2 (amended): provided the address space does not start at virtual
address 0 (with base 0 a wrapped aligned candidate 0 can be accepted, see the
counterexample) and the data-model invariant held before the call, every
public VMM call, succeeding or failing, leaves the regions strictly sorted by
base, pairwise disjoint, and contained in the aspace. -/
theorem vmm_calls_preserve_region_invariants (st : VmState)
    (hwf : aspaceWF st.aspace) (hb : 0 < st.aspace.base)
    (hinv : aspaceInv st.aspace) :
    (∀ size va qf, size < M →
       regionsSorted (vmm_reserve_space st size va qf).2.aspace ∧
       regionsDisjoint (vmm_reserve_space st size va qf).2.aspace ∧
       regionsContained (vmm_reserve_space st size va qf).2.aspace) ∧
    (∀ size ptr pa sp af mr, size < M →
       regionsSorted (vmm_alloc_physical st size ptr pa sp af mr).2.1.aspace ∧
       regionsDisjoint (vmm_alloc_physical st size ptr pa sp af mr).2.1.aspace ∧
       regionsContained (vmm_alloc_physical st size ptr pa sp af mr).2.1.aspace) ∧
    (∀ size ptr ap sp af grant mr, (sp = false → ap < 32) →
       regionsSorted (vmm_alloc_contiguous st size ptr ap sp af grant mr).2.1.aspace ∧
       regionsDisjoint (vmm_alloc_contiguous st size ptr ap sp af grant mr).2.1.aspace ∧
       regionsContained (vmm_alloc_contiguous st size ptr ap sp af grant mr).2.1.aspace) ∧
    (∀ size ptr ap sp af mr, (sp = false → ap < 32) →
       regionsSorted (vmm_alloc st size ptr ap sp af mr).2.1.aspace ∧
       regionsDisjoint (vmm_alloc st size ptr ap sp af mr).2.1.aspace ∧
       regionsContained (vmm_alloc st size ptr ap sp af mr).2.1.aspace) := by
  refine ⟨fun size va qf hszM => aspaceInv_props ?_,
    fun size ptr pa sp af mr hszM => aspaceInv_props ?_,
    fun size ptr ap sp af grant mr hap => aspaceInv_props ?_,
    fun size ptr ap sp af mr hap => aspaceInv_props ?_⟩
  · exact vmm_reserve_space_inv hwf hb hinv hszM
  · exact vmm_alloc_physical_inv hwf hb hinv hszM
  · exact vmm_alloc_contiguous_inv hwf hb hinv hap
  · exact vmm_alloc_inv hwf hb hinv hap

theorem vmm_calls_preserve_region_invariants_witness :
    regionsSorted (vmm_reserve_space ⟨kasp, [], []⟩ 0x1000 0x10000000 0).2.aspace ∧
    regionsDisjoint (vmm_reserve_space ⟨kasp, [], []⟩ 0x1000 0x10000000 0).2.aspace ∧
    regionsContained (vmm_reserve_space ⟨kasp, [], []⟩ 0x1000 0x10000000 0).2.aspace :=
  (vmm_calls_preserve_region_invariants ⟨kasp, [], []⟩ (by decide) (by decide)
    (by decide)).1 0x1000 0x10000000 0 (by decide)

/-- C3 (counterexample): on the base-0 aspace the search does not fail even
though no valid spot exists: it returns address 0, which overlaps the first
region, so the returned spot is not a valid spot at all. -/
theorem alloc_spot_zero_base_invalid :
    aspaceWF asZero ∧ aspaceInv asZero ∧
    alloc_spot asZero 0x1000 31 = some (0, 2) ∧
    ¬ validSpot asZero 0x1000 (2 ^ max 31 PAGE_SIZE_SHIFT) 0 := by decide

/-- C3 (amended): for an aspace with nonzero base satisfying the data-model
invariant, and page-aligned nonzero size, alloc_spot either fails or returns
the smallest address that is a multiple of 1 << max(align_pow2, page_shift),
fits inside the aspace, and is disjoint from every region; and it fails
exactly when no such address exists. -/
theorem alloc_spot_first_fit_correct (as : Aspace) (size align_pow2 : Nat)
    (hwf : aspaceWF as) (hb : 0 < as.base) (hinv : aspaceInv as)
    (hsz : 0 < size) (hpal : PAGE_SIZE ∣ size) (hap : align_pow2 < 32) :
    (∀ spot k, alloc_spot as size align_pow2 = some (spot, k) →
        validSpot as size (2 ^ max align_pow2 PAGE_SIZE_SHIFT) spot ∧
        ∀ s, validSpot as size (2 ^ max align_pow2 PAGE_SIZE_SHIFT) s → spot ≤ s) ∧
    (alloc_spot as size align_pow2 = none →
        ∀ s, ¬ validSpot as size (2 ^ max align_pow2 PAGE_SIZE_SHIFT) s) := by
  have h := alloc_spot_spec hwf hb hinv hsz hap rfl
  exact ⟨fun spot k hs => ⟨(h.1 spot k hs).1, (h.1 spot k hs).2.1⟩, h.2⟩

theorem alloc_spot_first_fit_correct_witness :
    validSpot kasp 0x1000 (2 ^ max 12 PAGE_SIZE_SHIFT) 0x10000000 ∧
    ∀ s, validSpot kasp 0x1000 (2 ^ max 12 PAGE_SIZE_SHIFT) s → 0x10000000 ≤ s :=
  (alloc_spot_first_fit_correct kasp 0x1000 12 (by decide) (by decide) (by decide)
    (by decide) (by decide) (by decide)).1 0x10000000 0 (by decide)

/-- C4 (counterexample): trim_to_aspace can return a length larger than the
request: for va at the aspace base and size one byte short of reaching the
aspace end, the comparison against aspace.size - 1 fires and the result is
size + 1. -/
theorem trim_to_aspace_off_by_one :
    kasp.base ≤ 0x10000000 ∧ 0x10000000 ≤ kasp.base + kasp.size - 1 ∧
    trim_to_aspace kasp 0x10000000 0xFFFFF = 0x100000 ∧
    ¬ trim_to_aspace kasp 0x10000000 0xFFFFF ≤ 0xFFFFF := by decide

/-- C4 (amended): for a contained va, trim_to_aspace returns 0 for size 0 and
otherwise a positive length that makes the region fit; it returns at most
size, and size unchanged whenever the region already fits, except in the
single off-by-one case va - base + size + 1 = aspace.size, where it returns
size + 1 (still fitting). -/
theorem trim_to_aspace_characterization (as : Aspace) (va size : Nat)
    (hwf : aspaceWF as) (h1 : as.base ≤ va) (h2 : va ≤ as.base + as.size - 1)
    (hszM : size < M) :
    (size = 0 → trim_to_aspace as va size = 0) ∧
    (0 < size → 0 < trim_to_aspace as va size ∧
       va + trim_to_aspace as va size ≤ as.base + as.size) ∧
    (0 < size → (va - as.base) + size + 1 = as.size →
       trim_to_aspace as va size = size + 1) ∧
    (0 < size → (va - as.base) + size + 1 ≠ as.size →
       trim_to_aspace as va size ≤ size ∧
       ((va - as.base) + size ≤ as.size → trim_to_aspace as va size = size)) := by
  have ht := trim_spec hwf size h1 h2 hszM
  have hWF := aspaceWF_elim hwf
  rw [ht]
  refine ⟨fun h => by simp [h], fun h => ?_, fun h hof => ?_, fun h hne => ⟨?_, fun hfit => ?_⟩⟩
  · split_ifs <;> omega
  · split_ifs <;> omega
  · split_ifs <;> omega
  · split_ifs <;> omega

theorem trim_to_aspace_characterization_witness :
    (0:Nat) < 0x2000 ∧
    (0 < trim_to_aspace kasp 0x10000000 0x2000 ∧
     0x10000000 + trim_to_aspace kasp 0x10000000 0x2000 ≤ kasp.base + kasp.size) :=
  ⟨by decide, (trim_to_aspace_characterization kasp 0x10000000 0x2000 (by decide)
    (by decide) (by decide) (by decide)).2.1 (by decide)⟩

/-- C5: scenario 1 (empty-aspace first-fit) succeeds at 0x10000000 with one
region [0x10000000, 0x10002000) holding two pages, and scenario 3 (64 KiB
alignment pushes past the region) then succeeds at 0x10010000, not
0x10002000. -/
theorem vmm_alloc_scenarios_first_fit_and_alignment :
    run1.1 = Status.NO_ERROR ∧ run1.2.2 = some 0x10000000 ∧
    st1.aspace.regions =
      [⟨0x10000000, 0x2000, VMM_REGION_FLAG_PHYSICAL, 0, [0x40000000, 0x40001000]⟩] ∧
    run2.1 = Status.NO_ERROR ∧ run2.2.2 = some 0x10010000 ∧
    run2.2.2 ≠ some 0x10002000 := by decide

/-- C6: every failing VMM call leaves the region list and the MMU log exactly
as they were; in particular the fixed-placement-overlap scenario returns
ERR_NO_MEMORY with the state unchanged and no map call recorded. -/
theorem vmm_failing_calls_leave_no_trace :
    (∀ st size va qf, (vmm_reserve_space st size va qf).1 ≠ Status.NO_ERROR →
       (vmm_reserve_space st size va qf).2.aspace.regions = st.aspace.regions ∧
       (vmm_reserve_space st size va qf).2.mmu = st.mmu) ∧
    (∀ st size ptr pa sp af mr,
       (vmm_alloc_physical st size ptr pa sp af mr).1 ≠ Status.NO_ERROR →
       (vmm_alloc_physical st size ptr pa sp af mr).2.1.aspace.regions =
         st.aspace.regions ∧
       (vmm_alloc_physical st size ptr pa sp af mr).2.1.mmu = st.mmu) ∧
    (∀ st size ptr ap sp af grant mr,
       (vmm_alloc_contiguous st size ptr ap sp af grant mr).1 ≠ Status.NO_ERROR →
       (vmm_alloc_contiguous st size ptr ap sp af grant mr).2.1.aspace.regions =
         st.aspace.regions ∧
       (vmm_alloc_contiguous st size ptr ap sp af grant mr).2.1.mmu = st.mmu) ∧
    (∀ st size ptr ap sp af mr,
       (vmm_alloc st size ptr ap sp af mr).1 ≠ Status.NO_ERROR →
       (vmm_alloc st size ptr ap sp af mr).2.1.aspace.regions = st.aspace.regions ∧
       (vmm_alloc st size ptr ap sp af mr).2.1.mmu = st.mmu) ∧
    ((vmm_alloc_physical st1 0x2000 (some 0x10001000) 0x80000000 true 5
        Status.NO_ERROR).1 = Status.ERR_NO_MEMORY ∧
     (vmm_alloc_physical st1 0x2000 (some 0x10001000) 0x80000000 true 5
        Status.NO_ERROR).2.1 = st1) := by
  refine ⟨fun st size va qf h => ?_, fun st size ptr pa sp af mr h => ?_,
    fun st size ptr ap sp af grant mr h => ?_,
    fun st size ptr ap sp af mr h => ?_, by decide⟩
  · have h2 := vmm_reserve_space_fail st size va qf h
    rw [h2]
    exact ⟨rfl, rfl⟩
  · have h2 := vmm_alloc_physical_fail st size ptr pa sp af mr h
    rw [h2]
    exact ⟨rfl, rfl⟩
  · have h2 := vmm_alloc_contiguous_fail st size ptr ap sp af grant mr h
    exact ⟨by rw [h2.1], h2.2⟩
  · have h2 := vmm_alloc_fail st size ptr ap sp af mr h
    exact ⟨by rw [h2.1], h2.2⟩

theorem vmm_failing_calls_leave_no_trace_witness :
    (vmm_reserve_space st0 0x1000 0x10000001 0).2.aspace.regions =
      st0.aspace.regions ∧
    (vmm_reserve_space st0 0x1000 0x10000001 0).2.mmu = st0.mmu :=
  vmm_failing_calls_leave_no_trace.1 st0 0x1000 0x10000001 0 (by decide)

/-- C7: reserving a range equal to an existing region fails with
ERR_NO_MEMORY and leaves the state unchanged. -/
theorem vmm_reserve_space_duplicate_no_memory (st : VmState) (size va qf : Nat)
    (hwf : aspaceWF st.aspace) (hinv : aspaceInv st.aspace) (hszM : size < M)
    (hval : IS_PAGE_ALIGNED va = true) (hvsz : IS_PAGE_ALIGNED size = true)
    (hex : ∃ ex ∈ st.aspace.regions, ex.base = va ∧ ex.size = size) :
    vmm_reserve_space st size va qf = (Status.ERR_NO_MEMORY, st) := by
  obtain ⟨ex, hmem, hbe, hse⟩ := hex
  obtain ⟨hx1, hx2, hx3⟩ := hinv.2 ex hmem
  have hWF := aspaceWF_elim hwf
  have hsz0 : size ≠ 0 := by omega
  have hin : is_inside_aspace st.aspace va = true :=
    (is_inside_iff hwf va).mpr ⟨by omega, by omega⟩
  unfold vmm_reserve_space
  rw [if_neg (by simp [hsz0])]
  rw [if_neg (by simp [hval, hvsz])]
  rw [if_neg (by simp [hin])]
  unfold_let
  have hcon1 : st.aspace.base ≤ va := by omega
  have hcon2 : va ≤ st.aspace.base + st.aspace.size - 1 := by omega
  have ht := trim_spec hwf size hcon1 hcon2 hszM
  have htb : 0 < trim_to_aspace st.aspace va size ∧
      trim_to_aspace st.aspace va size < M ∧
      va + trim_to_aspace st.aspace va size ≤ st.aspace.base + st.aspace.size := by
    rw [ht]; split_ifs <;> omega
  have hover : add_region_to_aspace st.aspace
      ⟨va, trim_to_aspace st.aspace va size, VMM_REGION_FLAG_RESERVED, qf, []⟩ =
      (Status.ERR_NO_MEMORY, st.aspace, 0) :=
    add_region_overlap hwf hinv hmem hbe htb.1 htb.2.1 hcon1 htb.2.2
  have halloc : alloc_region st.aspace (trim_to_aspace st.aspace va size) va 0 true
      VMM_REGION_FLAG_RESERVED qf = none := by
    unfold alloc_region
    unfold_let
    rw [if_pos rfl, hover]
  rw [halloc]

theorem vmm_reserve_space_duplicate_no_memory_witness :
    vmm_reserve_space stRes 0x1000 0x10008000 0 = (Status.ERR_NO_MEMORY, stRes) :=
  vmm_reserve_space_duplicate_no_memory stRes 0x1000 0x10008000 0 (by decide)
    (by decide) (by decide) (by decide) (by decide) (by decide)

/-- C8 (counterexample): vmm_alloc_contiguous with VALLOC_SPECIFIC and an
unaligned *ptr succeeds and inserts a region whose base is not a multiple of
the page size. -/
theorem specific_unaligned_base_counterexample :
    runUnaligned.1 = Status.NO_ERROR ∧
    runUnaligned.2.1.aspace.regions =
      [⟨0x10000100, 0x1000, VMM_REGION_FLAG_PHYSICAL, 0, [0x40000000]⟩] ∧
    ¬ PAGE_SIZE ∣ 0x10000100 := by decide

/-- C8 (amended): after every public call, region sizes stay page-aligned and
positive; bases stay page-aligned for vmm_reserve_space unconditionally, and
for the three allocation entry points provided any VALLOC_SPECIFIC pointer is
itself page-aligned (with an unaligned specific pointer the inserted base is
that unaligned value, see the counterexample). -/
theorem region_alignment_after_calls (st : VmState)
    (hwf : aspaceWF st.aspace)
    (hbA : PAGE_SIZE ∣ st.aspace.base) (hsA : PAGE_SIZE ∣ st.aspace.size)
    (hpre : regionsAligned st.aspace.regions) :
    (∀ size va qf, size < M →
       regionsAligned (vmm_reserve_space st size va qf).2.aspace.regions) ∧
    (∀ size ptr pa sp af mr,
       (∀ r ∈ (vmm_alloc_physical st size ptr pa sp af mr).2.1.aspace.regions,
          PAGE_SIZE ∣ r.size ∧ 0 < r.size) ∧
       ((sp = true → PAGE_SIZE ∣ ptr.getD 0) →
         regionsAligned (vmm_alloc_physical st size ptr pa sp af mr).2.1.aspace.regions)) ∧
    (∀ size ptr ap sp af grant mr,
       (∀ r ∈ (vmm_alloc_contiguous st size ptr ap sp af grant mr).2.1.aspace.regions,
          PAGE_SIZE ∣ r.size ∧ 0 < r.size) ∧
       ((sp = true → PAGE_SIZE ∣ ptr.getD 0) →
         regionsAligned
           (vmm_alloc_contiguous st size ptr ap sp af grant mr).2.1.aspace.regions)) ∧
    (∀ size ptr ap sp af mr,
       (∀ r ∈ (vmm_alloc st size ptr ap sp af mr).2.1.aspace.regions,
          PAGE_SIZE ∣ r.size ∧ 0 < r.size) ∧
       ((sp = true → PAGE_SIZE ∣ ptr.getD 0) →
         regionsAligned (vmm_alloc st size ptr ap sp af mr).2.1.aspace.regions)) :=
  ⟨fun size va qf hszM => vmm_reserve_space_aligned hwf hbA hsA hszM hpre,
   fun _ _ _ _ _ _ => vmm_alloc_physical_aligned hpre,
   fun _ _ _ _ _ _ _ => vmm_alloc_contiguous_aligned hpre,
   fun _ _ _ _ _ _ => vmm_alloc_aligned hpre⟩

theorem region_alignment_after_calls_witness :
    regionsAligned (vmm_reserve_space st0 0x1000 0x10008000 0).2.aspace.regions :=
  (region_alignment_after_calls st0 (by decide) (by decide) (by decide)
    (by decide)).1 0x1000 0x10008000 0 (by decide)

/-- C9: with size 0, vmm_reserve_space and vmm_alloc_physical return NO_ERROR
immediately and leave the whole state (and the caller's pointer) untouched. -/
theorem size_zero_reserve_and_alloc_physical_noop :
    (∀ (st : VmState) (va qf : Nat),
       vmm_reserve_space st 0 va qf = (Status.NO_ERROR, st)) ∧
    (∀ (st : VmState) (ptr : Option Nat) (pa : Nat) (sp : Bool) (af : Nat)
       (mr : Status),
       vmm_alloc_physical st 0 ptr pa sp af mr = (Status.NO_ERROR, st, ptr)) :=
  ⟨fun _ _ _ => rfl, fun _ _ _ _ _ _ => rfl⟩

/-- C10: the result (status, state, published pointer) of each mapping entry
point is the same for any statuses the MMU driver returns, and on the
success path the calls return NO_ERROR with the region kept and *ptr
published even when every arch_mmu_map call reports failure. -/
theorem vmm_status_independent_of_mmu_map :
    (∀ st size ptr pa sp af r1 r2,
       vmm_alloc_physical st size ptr pa sp af r1 =
         vmm_alloc_physical st size ptr pa sp af r2) ∧
    (∀ st size ptr ap sp af grant r1 r2,
       vmm_alloc_contiguous st size ptr ap sp af grant r1 =
         vmm_alloc_contiguous st size ptr ap sp af grant r2) ∧
    (∀ st size ptr ap sp af f g,
       vmm_alloc st size ptr ap sp af f = vmm_alloc st size ptr ap sp af g) ∧
    ((vmm_alloc st0 0x2000 (some 0x99) 12 false 0 (fun _ => Status.ERR_GENERIC)).1 =
       Status.NO_ERROR ∧
     (vmm_alloc st0 0x2000 (some 0x99) 12 false 0 (fun _ => Status.ERR_GENERIC)).2.2 =
       some 0x10000000 ∧
     (vmm_alloc st0 0x2000 (some 0x99) 12 false 0
        (fun _ => Status.ERR_GENERIC)).2.1.aspace.regions =
       [⟨0x10000000, 0x2000, VMM_REGION_FLAG_PHYSICAL, 0, [0x40000000, 0x40001000]⟩] ∧
     (vmm_alloc_physical st0 0x1000 (some 0x10080000) 0x90000000 true 7
        Status.ERR_GENERIC).1 = Status.NO_ERROR ∧
     (vmm_alloc_contiguous st0 0x1000 (some 0x99) 12 false 0 4
        Status.ERR_GENERIC).1 = Status.NO_ERROR) := by
  refine ⟨fun _ _ _ _ _ _ _ _ => rfl, fun _ _ _ _ _ _ _ _ _ => rfl,
    fun _ _ _ _ _ _ _ _ => rfl, by decide⟩

end Vmm
